import Mathlib

/-!
Shallow embedding of the merge-pna core (src/pna.rs) and verification of the
specified properties.  Bytes are modelled as `Nat`; every place where the Rust
code relies on fixed-width wrap-around (`u8` shifts, `as u8` / `as u16` casts)
carries an explicit `% 256` or `% 65536`.  Fallible functions return
`Except MergeError`.
-/

namespace MergePna

/-- Embeds `png::BitDepth` (the five PNG bit depths used by `pna.rs`). -/
inductive BitDepth where
  | one
  | two
  | four
  | eight
  | sixteen
deriving DecidableEq, Repr

/-- Embeds `png::ColorType` (the five PNG color models used by `pna.rs`). -/
inductive ColorType where
  | grayscale
  | rgb
  | indexed
  | grayscaleAlpha
  | rgba
deriving DecidableEq, Repr

/-- Embeds `MergeError` (src/error.rs).  The `Io`/`DecodingError`/`EncodingError`
variants wrap external-library failures that never arise inside `pna.rs`
and are omitted from the embedding of the core. -/
inductive MergeError where
  | sizePngAndPnaAreDifferent
  | lessDataSize
  | paletteNotFoundWhenIndexedPng
  | invalidPalette
  | invalidIndexForPalette
deriving DecidableEq, Repr

/-- Embeds `png::Info` restricted to the fields `pna.rs` reads:
width, height, bit depth, color type and the optional raw palette bytes. -/
structure Info where
  width : Nat
  height : Nat
  bit_depth : BitDepth
  color_type : ColorType
  palette : Option (List Nat)
deriving DecidableEq, Repr

/-- Embeds the per-byte arm of `read_byte_for_bit_depth_8` (src/pna.rs:240-308)
for bit depths One/Two/Four/Eight: the samples written into `output[0..buf_size]`
for one input byte `t1`.  The Sixteen arm consumes two bytes and is embedded
directly in the driver `read_bytes_for_bit_depth_8` below; here it yields `[]`. -/
def read_byte_for_bit_depth_8 (t1 : Nat) (bit_depth : BitDepth) : List Nat :=
  match bit_depth with
  | .one =>
      (List.range 8).map fun i =>
        if ((t1 <<< i) % 256) ||| 0b01111111 = 255 then 255 else 0
  | .two =>
      (List.range 4).map fun i =>
        (if ((t1 <<< (i * 2)) % 256) ||| 0b01111111 = 255 then 0b10000000 else 0) +
        (if ((t1 <<< (i * 2 + 1)) % 256) ||| 0b01111111 = 255 then 0b01111111 else 0)
  | .four =>
      (List.range 2).map fun i =>
        (if ((t1 <<< (i * 4)) % 256) ||| 0b01111111 = 255 then 0b10000000 else 0) +
        (if ((t1 <<< (i * 4 + 1)) % 256) ||| 0b01111111 = 255 then 0b01000000 else 0) +
        (if ((t1 <<< (i * 4 + 2)) % 256) ||| 0b01111111 = 255 then 0b00100000 else 0) +
        (if ((t1 <<< (i * 4 + 3)) % 256) ||| 0b01111111 = 255 then 0b00011111 else 0)
  | .eight => [t1]
  | .sixteen => []

/-- Embeds `read_bytes_for_bit_depth_8` (src/pna.rs:227-238): repeatedly pulls
bytes off the buffer and appends the expanded samples.  The Sixteen case pairs
two bytes `t1 t2`, forms `v = t1 << 8 | t2` in `u16` and keeps `(v >> 8) as u8`;
an unpaired final byte is `LessDataSize` (src/pna.rs:294-303). -/
def read_bytes_for_bit_depth_8 : List Nat → BitDepth → Except MergeError (List Nat)
  | [], _ => .ok []
  | _t1 :: [], .sixteen => .error .lessDataSize
  | t1 :: t2 :: rest2, .sixteen =>
      match read_bytes_for_bit_depth_8 rest2 .sixteen with
      | .error e => .error e
      | .ok tail => .ok (((((t1 <<< 8) % 65536 ||| t2 % 256) >>> 8) % 256) :: tail)
  | t1 :: rest, bit_depth =>
      match read_bytes_for_bit_depth_8 rest bit_depth with
      | .error e => .error e
      | .ok tail => .ok (read_byte_for_bit_depth_8 t1 bit_depth ++ tail)

/-- Embeds the per-byte arm of `read_byte_for_usize` (src/pna.rs:323-375)
for bit depths One/Two/Four/Eight: the raw-magnitude index samples for one
input byte `t1`.  The Sixteen arm consumes two bytes and is embedded directly
in the driver `read_bytes_for_usize` below; here it yields `[]`. -/
def read_byte_for_usize (t1 : Nat) (bit_depth : BitDepth) : List Nat :=
  match bit_depth with
  | .one =>
      (List.range 8).map fun i =>
        if ((t1 <<< i) % 256) ||| 0b01111111 = 255 then 1 else 0
  | .two =>
      (List.range 4).map fun i => (((t1 <<< (i * 2)) % 256) >>> 6) &&& 0b00000011
  | .four =>
      (List.range 2).map fun i => (((t1 <<< (i * 4)) % 256) >>> 4) &&& 0b00001111
  | .eight => [t1]
  | .sixteen => []

/-- Embeds `read_bytes_for_usize` (src/pna.rs:310-321): the index-mode driver.
The Sixteen case forms `v = ((t1 as u16) << 8 & 0xFF00) + t2` and keeps the
whole 16-bit value as the index (src/pna.rs:358-370); an unpaired final byte
is `LessDataSize`. -/
def read_bytes_for_usize : List Nat → BitDepth → Except MergeError (List Nat)
  | [], _ => .ok []
  | _t1 :: [], .sixteen => .error .lessDataSize
  | t1 :: t2 :: rest2, .sixteen =>
      match read_bytes_for_usize rest2 .sixteen with
      | .error e => .error e
      | .ok tail => .ok (((((t1 <<< 8) % 65536) &&& 0b1111111100000000) + t2 % 256) :: tail)
  | t1 :: rest, bit_depth =>
      match read_bytes_for_usize rest bit_depth with
      | .error e => .error e
      | .ok tail => .ok (read_byte_for_usize t1 bit_depth ++ tail)

/-- Embeds `split_palette` (src/pna.rs:377-390): split the raw palette bytes
into 3-byte RGB chunks; a trailing chunk shorter than 3 is `InvalidPalette`. -/
def split_palette : List Nat → Except MergeError (List (Nat × Nat × Nat))
  | [] => .ok []
  | p0 :: p1 :: p2 :: rest =>
      match split_palette rest with
      | .error e => .error e
      | .ok tail => .ok ((p0, p1, p2) :: tail)
  | _ => .error .invalidPalette

/-- Embeds `Vec::resize(new_len, 0)` on byte vectors as used in `pna.rs`:
truncate to `new_len`, padding with zeros if the vector was shorter. -/
def resize (l : List Nat) (new_len : Nat) : List Nat :=
  l.take new_len ++ List.replicate (new_len - l.length) 0

/-- Embeds the per-pixel loop of the `Grayscale` arm of `buf_to_rgba`
(src/pna.rs:34-52): pull one sample `g` per pixel, emit `(g,g,g,255)`;
exhaustion is `LessDataSize`. -/
def grayscale_to_rgba : Nat → List Nat → Except MergeError (List Nat)
  | 0, _ => .ok []
  | _ + 1, [] => .error .lessDataSize
  | n + 1, g :: rest =>
      match grayscale_to_rgba n rest with
      | .error e => .error e
      | .ok tail => .ok (g :: g :: g :: 255 :: tail)

/-- Embeds the per-pixel loop of the `Rgb` arm of `buf_to_rgba`
(src/pna.rs:53-71): pull three samples `r,g,b` per pixel, emit `(r,g,b,255)`;
fewer than three remaining samples is `LessDataSize`. -/
def rgb_to_rgba : Nat → List Nat → Except MergeError (List Nat)
  | 0, _ => .ok []
  | n + 1, r :: g :: b :: rest =>
      match rgb_to_rgba n rest with
      | .error e => .error e
      | .ok tail => .ok (r :: g :: b :: 255 :: tail)
  | _ + 1, _ => .error .lessDataSize

/-- Embeds the per-pixel loop of the `Indexed` arm of `buf_to_rgba`
(src/pna.rs:81-96): pull one index per pixel, look it up in the split palette;
an out-of-range index is `InvalidIndexForPalette`, exhaustion is `LessDataSize`. -/
def indexed_to_rgba (palette : List (Nat × Nat × Nat)) :
    Nat → List Nat → Except MergeError (List Nat)
  | 0, _ => .ok []
  | _ + 1, [] => .error .lessDataSize
  | n + 1, i :: rest =>
      match palette[i]? with
      | some p =>
          match indexed_to_rgba palette n rest with
          | .error e => .error e
          | .ok tail => .ok (p.1 :: p.2.1 :: p.2.2 :: 255 :: tail)
      | none => .error .invalidIndexForPalette

/-- Embeds the per-pixel loop of the `GrayscaleAlpha` arm of `buf_to_rgba`
(src/pna.rs:100-118): pull two samples `g,a` per pixel, emit `(g,g,g,a)`. -/
def grayscale_alpha_to_rgba : Nat → List Nat → Except MergeError (List Nat)
  | 0, _ => .ok []
  | n + 1, g :: a :: rest =>
      match grayscale_alpha_to_rgba n rest with
      | .error e => .error e
      | .ok tail => .ok (g :: g :: g :: a :: tail)
  | _ + 1, _ => .error .lessDataSize

/-- Embeds `buf_to_rgba` (src/pna.rs:32-130): unpack the buffer at the image's
bit depth, then expand per color model into canonical 8-bit RGBA. -/
def buf_to_rgba (buf : List Nat) (pixel_size : Nat) (info : Info) :
    Except MergeError (List Nat) :=
  match info.color_type with
  | .grayscale =>
      match read_bytes_for_bit_depth_8 buf info.bit_depth with
      | .error e => .error e
      | .ok bytes => grayscale_to_rgba pixel_size bytes
  | .rgb =>
      match read_bytes_for_bit_depth_8 buf info.bit_depth with
      | .error e => .error e
      | .ok bytes => rgb_to_rgba pixel_size bytes
  | .indexed =>
      match read_bytes_for_usize buf info.bit_depth with
      | .error e => .error e
      | .ok indices =>
          match info.palette with
          | some v =>
              match split_palette v with
              | .error e => .error e
              | .ok palette => indexed_to_rgba palette pixel_size indices
          | none => .error .paletteNotFoundWhenIndexedPng
  | .grayscaleAlpha =>
      match read_bytes_for_bit_depth_8 buf info.bit_depth with
      | .error e => .error e
      | .ok bytes => grayscale_alpha_to_rgba pixel_size bytes
  | .rgba =>
      match read_bytes_for_bit_depth_8 buf info.bit_depth with
      | .error e => .error e
      | .ok bytes =>
          if bytes.length < pixel_size * 4 then .error .lessDataSize
          else .ok (resize bytes (pixel_size * 4))

/-- Embeds the per-pixel loop of the `Rgb` arm of `buf_to_alpha_mask`
(src/pna.rs:144-159): pull `r,g,b`, push `((r+g+b)/3) as u8` (sum in `u16`). -/
def rgb_to_alpha : Nat → List Nat → Except MergeError (List Nat)
  | 0, _ => .ok []
  | n + 1, r :: g :: b :: rest =>
      match rgb_to_alpha n rest with
      | .error e => .error e
      | .ok tail => .ok ((((r + g + b) / 3) % 256) :: tail)
  | _ + 1, _ => .error .lessDataSize

/-- Embeds the per-pixel loop of the `Indexed` arm of `buf_to_alpha_mask`
(src/pna.rs:160-184): look the index up, push the palette entry's average. -/
def indexed_to_alpha (palette : List (Nat × Nat × Nat)) :
    Nat → List Nat → Except MergeError (List Nat)
  | 0, _ => .ok []
  | _ + 1, [] => .error .lessDataSize
  | n + 1, i :: rest =>
      match palette[i]? with
      | some p =>
          match indexed_to_alpha palette n rest with
          | .error e => .error e
          | .ok tail => .ok ((((p.1 + p.2.1 + p.2.2) / 3) % 256) :: tail)
      | none => .error .invalidIndexForPalette

/-- Embeds the per-pixel loop of the `GrayscaleAlpha` arm of `buf_to_alpha_mask`
(src/pna.rs:186-201): pull `g,a`, push `g` (the source alpha is dropped). -/
def grayscale_alpha_to_alpha : Nat → List Nat → Except MergeError (List Nat)
  | 0, _ => .ok []
  | n + 1, g :: _a :: rest =>
      match grayscale_alpha_to_alpha n rest with
      | .error e => .error e
      | .ok tail => .ok (g :: tail)
  | _ + 1, _ => .error .lessDataSize

/-- Embeds the per-pixel loop of the `Rgba` arm of `buf_to_alpha_mask`
(src/pna.rs:202-223): pull `r,g,b,a`, push `((r+g+b)/3) as u8` (alpha dropped). -/
def rgba_to_alpha : Nat → List Nat → Except MergeError (List Nat)
  | 0, _ => .ok []
  | n + 1, r :: g :: b :: _a :: rest =>
      match rgba_to_alpha n rest with
      | .error e => .error e
      | .ok tail => .ok ((((r + g + b) / 3) % 256) :: tail)
  | _ + 1, _ => .error .lessDataSize

/-- Embeds `buf_to_alpha_mask` (src/pna.rs:132-225): unpack the buffer, then
reduce per color model to one luminance byte per pixel. -/
def buf_to_alpha_mask (buf : List Nat) (pixel_size : Nat) (info : Info) :
    Except MergeError (List Nat) :=
  match info.color_type with
  | .grayscale =>
      match read_bytes_for_bit_depth_8 buf info.bit_depth with
      | .error e => .error e
      | .ok bytes =>
          if bytes.length < pixel_size then .error .lessDataSize
          else .ok (resize bytes pixel_size)
  | .rgb =>
      match read_bytes_for_bit_depth_8 buf info.bit_depth with
      | .error e => .error e
      | .ok bytes => rgb_to_alpha pixel_size bytes
  | .indexed =>
      match read_bytes_for_usize buf info.bit_depth with
      | .error e => .error e
      | .ok indices =>
          match info.palette with
          | some v =>
              match split_palette v with
              | .error e => .error e
              | .ok palette => indexed_to_alpha palette pixel_size indices
          | none => .error .paletteNotFoundWhenIndexedPng
  | .grayscaleAlpha =>
      match read_bytes_for_bit_depth_8 buf info.bit_depth with
      | .error e => .error e
      | .ok bytes => grayscale_alpha_to_alpha pixel_size bytes
  | .rgba =>
      match read_bytes_for_bit_depth_8 buf info.bit_depth with
      | .error e => .error e
      | .ok bytes => rgba_to_alpha pixel_size bytes

/-- Embeds the write-back loop of `merge_pna` (src/pna.rs:21-27): for `count`
pixels starting at pixel `i`, overwrite byte `i*4+3` of the RGBA buffer with
mask byte `i`; any out-of-bounds access is `LessDataSize`. -/
def merge_loop : Nat → Nat → List Nat → List Nat → Except MergeError (List Nat)
  | 0, _, png_rgba, _ => .ok png_rgba
  | count + 1, i, png_rgba, pna_alpha_mask =>
      match png_rgba[i * 4 + 3]?, pna_alpha_mask[i]? with
      | some _, some value =>
          merge_loop count (i + 1) (png_rgba.set (i * 4 + 3) value) pna_alpha_mask
      | _, _ => .error .lessDataSize

/-- Embeds `merge_pna` (src/pna.rs:7-30): dimension check, normalization of
image 1, alpha-mask derivation from image 2, then the alpha write-back loop. -/
def merge_pna (png_buf : List Nat) (png_info : Info) (pna_buf : List Nat)
    (pna_info : Info) : Except MergeError (List Nat) :=
  if png_info.width ≠ pna_info.width ∨ png_info.height ≠ pna_info.height then
    .error .sizePngAndPnaAreDifferent
  else
    match buf_to_rgba png_buf (png_info.width * png_info.height) png_info with
    | .error e => .error e
    | .ok png_rgba =>
        match buf_to_alpha_mask pna_buf (png_info.width * png_info.height) pna_info with
        | .error e => .error e
        | .ok pna_alpha_mask =>
            merge_loop (png_info.width * png_info.height) 0 png_rgba pna_alpha_mask

/-- Decidable equality for `Except` results, used to evaluate the embedding
on concrete inputs. -/
instance {ε α : Type} [DecidableEq ε] [DecidableEq α] : DecidableEq (Except ε α) := fun
  | .ok a, .ok b => if h : a = b then .isTrue (by rw [h]) else .isFalse (by simp [h])
  | .error a, .error b => if h : a = b then .isTrue (by rw [h]) else .isFalse (by simp [h])
  | .ok _, .error _ => .isFalse (by simp)
  | .error _, .ok _ => .isFalse (by simp)

/-- Number of bits per sample of a `BitDepth`. -/
def bit_count : BitDepth → Nat
  | .one => 1
  | .two => 2
  | .four => 4
  | .eight => 8
  | .sixteen => 16

/-- The scaled 8-bit sample the code produces for a raw `n`-bit value `v`:
the first sample of the expansion of the byte holding `v` in its top `n` bits. -/
def scaled_sample (bit_depth : BitDepth) (v : Nat) : Nat :=
  (read_byte_for_bit_depth_8 ((v <<< (8 - bit_count bit_depth)) % 256) bit_depth).headD 0

/-- Modelled from the spec's words (for comparison with the code): map a raw
`n`-bit value `v` to `v` shifted left by `8−n`, with the low `8−n` bits all
ones iff the least-significant bit of `v` is 1. -/
def scaled_spec (n v : Nat) : Nat :=
  (v <<< (8 - n)) + (if v % 2 = 1 then 2 ^ (8 - n) - 1 else 0)

/-- The `8/n` raw `n`-bit groups of a byte `t1`, most-significant bits first. -/
def bit_groups (n t1 : Nat) : List Nat :=
  (List.range (8 / n)).map fun i => (t1 >>> (8 - n * (i + 1))) &&& (2 ^ n - 1)

/-- Samples per pixel of each color model (the spec's `channels`). -/
def channels : ColorType → Nat
  | .grayscale => 1
  | .rgb => 3
  | .indexed => 1
  | .grayscaleAlpha => 2
  | .rgba => 4

/-- Modelled from the spec's words (for comparison with the code): reduce an
RGBA buffer to one byte per 4-byte pixel, namely `(R+G+B)/3` with truncating
division (the sum taken in widened arithmetic), ignoring the pixel's alpha. -/
def alpha_from_rgba_spec : List Nat → List Nat
  | r :: g :: b :: _a :: rest => (((r + g + b) / 3) % 256) :: alpha_from_rgba_spec rest
  | _ => []

set_option maxRecDepth 10000 in
/-- C1: scaled-mode bit unpacking.  For every byte and every depth n ∈ {1,2,4},
each produced 8-bit sample equals the raw n-bit group value shifted left by
8−n with the low 8−n bits all ones iff the group's least-significant bit is 1
(otherwise 0); depth 8 passes the byte through unchanged; at depth 2 the raw
samples 3,2,1,0 map to 255,128,127,0 and at depth 1 the samples 1,0 map to
255,0. -/
theorem claim1 :
    (∀ t1 < 256,
      read_byte_for_bit_depth_8 t1 .one = (bit_groups 1 t1).map (scaled_spec 1) ∧
      read_byte_for_bit_depth_8 t1 .two = (bit_groups 2 t1).map (scaled_spec 2) ∧
      read_byte_for_bit_depth_8 t1 .four = (bit_groups 4 t1).map (scaled_spec 4) ∧
      read_byte_for_bit_depth_8 t1 .eight = [t1]) ∧
    scaled_sample .two 0b11 = 255 ∧ scaled_sample .two 0b10 = 128 ∧
    scaled_sample .two 0b01 = 127 ∧ scaled_sample .two 0b00 = 0 ∧
    scaled_sample .one 1 = 255 ∧ scaled_sample .one 0 = 0 := by
  decide

/-- Witness for C1 at the concrete byte 181 = 0b10110101. -/
theorem claim1_witness :
    read_byte_for_bit_depth_8 181 .two = (bit_groups 2 181).map (scaled_spec 2) :=
  (claim1.1 181 (by decide)).2.1

set_option maxHeartbeats 4000000 in
set_option maxRecDepth 100000 in
/-- C9: for each depth n ∈ {1,2,4,8} the scaled-mode expansion is strictly
increasing on raw samples 0..2^n−1, maps 0 to 0 and maps 2^n−1 to 255. -/
theorem claim9 :
    ((∀ w < 2 ^ 1, ∀ v < w, scaled_sample .one v < scaled_sample .one w) ∧
      scaled_sample .one 0 = 0 ∧ scaled_sample .one (2 ^ 1 - 1) = 255) ∧
    ((∀ w < 2 ^ 2, ∀ v < w, scaled_sample .two v < scaled_sample .two w) ∧
      scaled_sample .two 0 = 0 ∧ scaled_sample .two (2 ^ 2 - 1) = 255) ∧
    ((∀ w < 2 ^ 4, ∀ v < w, scaled_sample .four v < scaled_sample .four w) ∧
      scaled_sample .four 0 = 0 ∧ scaled_sample .four (2 ^ 4 - 1) = 255) ∧
    ((∀ w < 2 ^ 8, ∀ v < w, scaled_sample .eight v < scaled_sample .eight w) ∧
      scaled_sample .eight 0 = 0 ∧ scaled_sample .eight (2 ^ 8 - 1) = 255) := by
  decide

/-- Witness for C9 at depth 1 with the raw samples 0 < 1. -/
theorem claim9_witness : scaled_sample .one 0 < scaled_sample .one 1 :=
  claim9.1.1 1 (by decide) 0 (by decide)

/-- Unpacking in scaled mode only ever fails with `LessDataSize`. -/
theorem read_bytes8_error_eq (buf : List Nat) (d : BitDepth) :
    ∀ e, read_bytes_for_bit_depth_8 buf d = .error e → e = .lessDataSize := by
  induction buf, d using read_bytes_for_bit_depth_8.induct with
  | case1 d => intro e h; simp [read_bytes_for_bit_depth_8] at h
  | case2 t1 => intro e h; simp [read_bytes_for_bit_depth_8] at h; exact h.symm
  | case3 t1 t2 rest2 e' hrest ih =>
      intro e h
      simp [read_bytes_for_bit_depth_8, hrest] at h
      exact h ▸ ih e' hrest
  | case4 t1 t2 rest2 tail hrest ih =>
      intro e h
      simp [read_bytes_for_bit_depth_8, hrest] at h
  | case5 t1 rest bit_depth h1 h2 e' hrest ih =>
      intro e h
      cases bit_depth with
      | sixteen =>
          cases rest with
          | nil => exact (h1 rfl rfl).elim
          | cons a b => exact (h2 a b rfl rfl).elim
      | one => simp [read_bytes_for_bit_depth_8, hrest] at h; exact h ▸ ih e' hrest
      | two => simp [read_bytes_for_bit_depth_8, hrest] at h; exact h ▸ ih e' hrest
      | four => simp [read_bytes_for_bit_depth_8, hrest] at h; exact h ▸ ih e' hrest
      | eight => simp [read_bytes_for_bit_depth_8, hrest] at h; exact h ▸ ih e' hrest
  | case6 t1 rest bit_depth h1 h2 tail hrest ih =>
      intro e h
      cases bit_depth with
      | sixteen =>
          cases rest with
          | nil => exact (h1 rfl rfl).elim
          | cons a b => exact (h2 a b rfl rfl).elim
      | one => simp [read_bytes_for_bit_depth_8, hrest] at h
      | two => simp [read_bytes_for_bit_depth_8, hrest] at h
      | four => simp [read_bytes_for_bit_depth_8, hrest] at h
      | eight => simp [read_bytes_for_bit_depth_8, hrest] at h

/-- Unpacking in index mode only ever fails with `LessDataSize`. -/
theorem read_bytes_usize_error_eq (buf : List Nat) (d : BitDepth) :
    ∀ e, read_bytes_for_usize buf d = .error e → e = .lessDataSize := by
  induction buf, d using read_bytes_for_usize.induct with
  | case1 d => intro e h; simp [read_bytes_for_usize] at h
  | case2 t1 => intro e h; simp [read_bytes_for_usize] at h; exact h.symm
  | case3 t1 t2 rest2 e' hrest ih =>
      intro e h
      simp [read_bytes_for_usize, hrest] at h
      exact h ▸ ih e' hrest
  | case4 t1 t2 rest2 tail hrest ih =>
      intro e h
      simp [read_bytes_for_usize, hrest] at h
  | case5 t1 rest bit_depth h1 h2 e' hrest ih =>
      intro e h
      cases bit_depth with
      | sixteen =>
          cases rest with
          | nil => exact (h1 rfl rfl).elim
          | cons a b => exact (h2 a b rfl rfl).elim
      | one => simp [read_bytes_for_usize, hrest] at h; exact h ▸ ih e' hrest
      | two => simp [read_bytes_for_usize, hrest] at h; exact h ▸ ih e' hrest
      | four => simp [read_bytes_for_usize, hrest] at h; exact h ▸ ih e' hrest
      | eight => simp [read_bytes_for_usize, hrest] at h; exact h ▸ ih e' hrest
  | case6 t1 rest bit_depth h1 h2 tail hrest ih =>
      intro e h
      cases bit_depth with
      | sixteen =>
          cases rest with
          | nil => exact (h1 rfl rfl).elim
          | cons a b => exact (h2 a b rfl rfl).elim
      | one => simp [read_bytes_for_usize, hrest] at h
      | two => simp [read_bytes_for_usize, hrest] at h
      | four => simp [read_bytes_for_usize, hrest] at h
      | eight => simp [read_bytes_for_usize, hrest] at h

/-- At depths other than Sixteen, scaled-mode unpacking always succeeds. -/
theorem read_bytes8_ok_of_ne16 (buf : List Nat) (d : BitDepth) (hd : d ≠ .sixteen) :
    ∃ r, read_bytes_for_bit_depth_8 buf d = .ok r := by
  induction buf with
  | nil => exact ⟨[], by simp [read_bytes_for_bit_depth_8]⟩
  | cons t1 rest ih =>
      obtain ⟨r, hr⟩ := ih
      cases d with
      | sixteen => exact absurd rfl hd
      | one =>
          exact ⟨read_byte_for_bit_depth_8 t1 .one ++ r,
            by simp [read_bytes_for_bit_depth_8, hr]⟩
      | two =>
          exact ⟨read_byte_for_bit_depth_8 t1 .two ++ r,
            by simp [read_bytes_for_bit_depth_8, hr]⟩
      | four =>
          exact ⟨read_byte_for_bit_depth_8 t1 .four ++ r,
            by simp [read_bytes_for_bit_depth_8, hr]⟩
      | eight =>
          exact ⟨read_byte_for_bit_depth_8 t1 .eight ++ r,
            by simp [read_bytes_for_bit_depth_8, hr]⟩

/-- At depths other than Sixteen, index-mode unpacking always succeeds. -/
theorem read_bytes_usize_ok_of_ne16 (buf : List Nat) (d : BitDepth) (hd : d ≠ .sixteen) :
    ∃ r, read_bytes_for_usize buf d = .ok r := by
  induction buf with
  | nil => exact ⟨[], by simp [read_bytes_for_usize]⟩
  | cons t1 rest ih =>
      obtain ⟨r, hr⟩ := ih
      cases d with
      | sixteen => exact absurd rfl hd
      | one =>
          exact ⟨read_byte_for_usize t1 .one ++ r,
            by simp [read_bytes_for_usize, hr]⟩
      | two =>
          exact ⟨read_byte_for_usize t1 .two ++ r,
            by simp [read_bytes_for_usize, hr]⟩
      | four =>
          exact ⟨read_byte_for_usize t1 .four ++ r,
            by simp [read_bytes_for_usize, hr]⟩
      | eight =>
          exact ⟨read_byte_for_usize t1 .eight ++ r,
            by simp [read_bytes_for_usize, hr]⟩

/-- Depth-16 scaled-mode unpacking succeeds on even byte counts and fails with
`LessDataSize` on odd ones. -/
theorem read_bytes8_sixteen_parity :
    ∀ buf : List Nat,
      (buf.length % 2 = 0 → ∃ r, read_bytes_for_bit_depth_8 buf .sixteen = .ok r) ∧
      (buf.length % 2 = 1 → read_bytes_for_bit_depth_8 buf .sixteen = .error .lessDataSize)
  | [] => ⟨fun _ => ⟨[], rfl⟩, fun h => by simp at h⟩
  | [t1] => ⟨fun h => by simp at h, fun _ => rfl⟩
  | t1 :: t2 :: rest => by
      obtain ⟨hok, herr⟩ := read_bytes8_sixteen_parity rest
      constructor
      · intro h
        obtain ⟨r, hr⟩ := hok (by simp at h ⊢; omega)
        exact ⟨((((t1 <<< 8) % 65536 ||| t2 % 256) >>> 8) % 256) :: r,
          by simp [read_bytes_for_bit_depth_8, hr]⟩
      · intro h
        have h2 := herr (by simp at h ⊢; omega)
        simp [read_bytes_for_bit_depth_8, h2]

/-- Depth-16 index-mode unpacking succeeds on even byte counts and fails with
`LessDataSize` on odd ones. -/
theorem read_bytes_usize_sixteen_parity :
    ∀ buf : List Nat,
      (buf.length % 2 = 0 → ∃ r, read_bytes_for_usize buf .sixteen = .ok r) ∧
      (buf.length % 2 = 1 → read_bytes_for_usize buf .sixteen = .error .lessDataSize)
  | [] => ⟨fun _ => ⟨[], rfl⟩, fun h => by simp at h⟩
  | [t1] => ⟨fun h => by simp at h, fun _ => rfl⟩
  | t1 :: t2 :: rest => by
      obtain ⟨hok, herr⟩ := read_bytes_usize_sixteen_parity rest
      constructor
      · intro h
        obtain ⟨r, hr⟩ := hok (by simp at h ⊢; omega)
        exact ⟨(((t1 <<< 8) % 65536 &&& 0b1111111100000000) + t2 % 256) :: r,
          by simp [read_bytes_for_usize, hr]⟩
      · intro h
        have h2 := herr (by simp at h ⊢; omega)
        simp [read_bytes_for_usize, h2]

/-- C7: at depths 1, 2, 4, 8 bit unpacking never fails on any input, in both
scaled and index mode; at depth 16 it fails, with `LessDataSize`, exactly when
the input byte count is odd, again in both modes. -/
theorem claim7 (buf : List Nat) (d : BitDepth) :
    (d ≠ .sixteen →
      (∃ r, read_bytes_for_bit_depth_8 buf d = .ok r) ∧
      (∃ r, read_bytes_for_usize buf d = .ok r)) ∧
    (read_bytes_for_bit_depth_8 buf .sixteen = .error .lessDataSize ↔ buf.length % 2 = 1) ∧
    (read_bytes_for_usize buf .sixteen = .error .lessDataSize ↔ buf.length % 2 = 1) := by
  refine ⟨fun hd => ⟨read_bytes8_ok_of_ne16 buf d hd, read_bytes_usize_ok_of_ne16 buf d hd⟩, ?_, ?_⟩
  · constructor
    · intro h
      rcases Nat.mod_two_eq_zero_or_one buf.length with hp | hp
      · obtain ⟨r, hr⟩ := (read_bytes8_sixteen_parity buf).1 hp
        rw [hr] at h
        exact absurd h (by simp)
      · exact hp
    · exact (read_bytes8_sixteen_parity buf).2
  · constructor
    · intro h
      rcases Nat.mod_two_eq_zero_or_one buf.length with hp | hp
      · obtain ⟨r, hr⟩ := (read_bytes_usize_sixteen_parity buf).1 hp
        rw [hr] at h
        exact absurd h (by simp)
      · exact hp
    · exact (read_bytes_usize_sixteen_parity buf).2

/-- Witness for C7: depth 1 on the byte [5] succeeds in both modes, and depth
16 on [5] (odd length) fails with `LessDataSize`. -/
theorem claim7_witness :
    ((∃ r, read_bytes_for_bit_depth_8 [5] .one = .ok r) ∧
      (∃ r, read_bytes_for_usize [5] .one = .ok r)) ∧
    (read_bytes_for_bit_depth_8 [5] .sixteen = .error .lessDataSize ↔
      ([5] : List Nat).length % 2 = 1) :=
  ⟨(claim7 [5] .one).1 (by decide), (claim7 [5] .one).2.1⟩

/-- The grayscale per-pixel loop only ever fails with `LessDataSize`. -/
theorem grayscale_to_rgba_error_eq :
    ∀ (n : Nat) (l : List Nat) (e : MergeError),
      grayscale_to_rgba n l = .error e → e = .lessDataSize := by
  intro n
  induction n with
  | zero => intro l e h; simp [grayscale_to_rgba] at h
  | succ n ih =>
      intro l e h
      cases l with
      | nil => simp [grayscale_to_rgba] at h; exact h.symm
      | cons g rest =>
          cases hrec : grayscale_to_rgba n rest with
          | error e' => simp [grayscale_to_rgba, hrec] at h; exact h ▸ ih rest e' hrec
          | ok tail => simp [grayscale_to_rgba, hrec] at h

/-- The RGB per-pixel loop only ever fails with `LessDataSize`. -/
theorem rgb_to_rgba_error_eq :
    ∀ (n : Nat) (l : List Nat) (e : MergeError),
      rgb_to_rgba n l = .error e → e = .lessDataSize := by
  intro n
  induction n with
  | zero => intro l e h; simp [rgb_to_rgba] at h
  | succ n ih =>
      intro l e h
      match l with
      | [] => simp [rgb_to_rgba] at h; exact h.symm
      | [r] => simp [rgb_to_rgba] at h; exact h.symm
      | [r, g] => simp [rgb_to_rgba] at h; exact h.symm
      | r :: g :: b :: rest =>
          cases hrec : rgb_to_rgba n rest with
          | error e' => simp [rgb_to_rgba, hrec] at h; exact h ▸ ih rest e' hrec
          | ok tail => simp [rgb_to_rgba, hrec] at h

/-- The grayscale-alpha per-pixel loop only ever fails with `LessDataSize`. -/
theorem grayscale_alpha_to_rgba_error_eq :
    ∀ (n : Nat) (l : List Nat) (e : MergeError),
      grayscale_alpha_to_rgba n l = .error e → e = .lessDataSize := by
  intro n
  induction n with
  | zero => intro l e h; simp [grayscale_alpha_to_rgba] at h
  | succ n ih =>
      intro l e h
      match l with
      | [] => simp [grayscale_alpha_to_rgba] at h; exact h.symm
      | [g] => simp [grayscale_alpha_to_rgba] at h; exact h.symm
      | g :: a :: rest =>
          cases hrec : grayscale_alpha_to_rgba n rest with
          | error e' => simp [grayscale_alpha_to_rgba, hrec] at h; exact h ▸ ih rest e' hrec
          | ok tail => simp [grayscale_alpha_to_rgba, hrec] at h

/-- The indexed per-pixel loop fails only with `LessDataSize` or
`InvalidIndexForPalette`. -/
theorem indexed_to_rgba_error_mem :
    ∀ (pal : List (Nat × Nat × Nat)) (n : Nat) (l : List Nat) (e : MergeError),
      indexed_to_rgba pal n l = .error e →
        e = .lessDataSize ∨ e = .invalidIndexForPalette := by
  intro pal n
  induction n with
  | zero => intro l e h; simp [indexed_to_rgba] at h
  | succ n ih =>
      intro l e h
      cases l with
      | nil => simp [indexed_to_rgba] at h; exact Or.inl h.symm
      | cons i rest =>
          cases hp : pal[i]? with
          | none => simp [indexed_to_rgba, hp] at h; exact Or.inr h.symm
          | some p =>
              cases hrec : indexed_to_rgba pal n rest with
              | error e' => simp [indexed_to_rgba, hp, hrec] at h; exact h ▸ ih rest e' hrec
              | ok tail => simp [indexed_to_rgba, hp, hrec] at h

/-- The RGB alpha-mask loop only ever fails with `LessDataSize`. -/
theorem rgb_to_alpha_error_eq :
    ∀ (n : Nat) (l : List Nat) (e : MergeError),
      rgb_to_alpha n l = .error e → e = .lessDataSize := by
  intro n
  induction n with
  | zero => intro l e h; simp [rgb_to_alpha] at h
  | succ n ih =>
      intro l e h
      match l with
      | [] => simp [rgb_to_alpha] at h; exact h.symm
      | [r] => simp [rgb_to_alpha] at h; exact h.symm
      | [r, g] => simp [rgb_to_alpha] at h; exact h.symm
      | r :: g :: b :: rest =>
          cases hrec : rgb_to_alpha n rest with
          | error e' => simp [rgb_to_alpha, hrec] at h; exact h ▸ ih rest e' hrec
          | ok tail => simp [rgb_to_alpha, hrec] at h

/-- The indexed alpha-mask loop fails only with `LessDataSize` or
`InvalidIndexForPalette`. -/
theorem indexed_to_alpha_error_mem :
    ∀ (pal : List (Nat × Nat × Nat)) (n : Nat) (l : List Nat) (e : MergeError),
      indexed_to_alpha pal n l = .error e →
        e = .lessDataSize ∨ e = .invalidIndexForPalette := by
  intro pal n
  induction n with
  | zero => intro l e h; simp [indexed_to_alpha] at h
  | succ n ih =>
      intro l e h
      cases l with
      | nil => simp [indexed_to_alpha] at h; exact Or.inl h.symm
      | cons i rest =>
          cases hp : pal[i]? with
          | none => simp [indexed_to_alpha, hp] at h; exact Or.inr h.symm
          | some p =>
              cases hrec : indexed_to_alpha pal n rest with
              | error e' => simp [indexed_to_alpha, hp, hrec] at h; exact h ▸ ih rest e' hrec
              | ok tail => simp [indexed_to_alpha, hp, hrec] at h

/-- The grayscale-alpha alpha-mask loop only ever fails with `LessDataSize`. -/
theorem grayscale_alpha_to_alpha_error_eq :
    ∀ (n : Nat) (l : List Nat) (e : MergeError),
      grayscale_alpha_to_alpha n l = .error e → e = .lessDataSize := by
  intro n
  induction n with
  | zero => intro l e h; simp [grayscale_alpha_to_alpha] at h
  | succ n ih =>
      intro l e h
      match l with
      | [] => simp [grayscale_alpha_to_alpha] at h; exact h.symm
      | [g] => simp [grayscale_alpha_to_alpha] at h; exact h.symm
      | g :: a :: rest =>
          cases hrec : grayscale_alpha_to_alpha n rest with
          | error e' => simp [grayscale_alpha_to_alpha, hrec] at h; exact h ▸ ih rest e' hrec
          | ok tail => simp [grayscale_alpha_to_alpha, hrec] at h

/-- The RGBA alpha-mask loop only ever fails with `LessDataSize`. -/
theorem rgba_to_alpha_error_eq :
    ∀ (n : Nat) (l : List Nat) (e : MergeError),
      rgba_to_alpha n l = .error e → e = .lessDataSize := by
  intro n
  induction n with
  | zero => intro l e h; simp [rgba_to_alpha] at h
  | succ n ih =>
      intro l e h
      match l with
      | [] => simp [rgba_to_alpha] at h; exact h.symm
      | [r] => simp [rgba_to_alpha] at h; exact h.symm
      | [r, g] => simp [rgba_to_alpha] at h; exact h.symm
      | [r, g, b] => simp [rgba_to_alpha] at h; exact h.symm
      | r :: g :: b :: a :: rest =>
          cases hrec : rgba_to_alpha n rest with
          | error e' => simp [rgba_to_alpha, hrec] at h; exact h ▸ ih rest e' hrec
          | ok tail => simp [rgba_to_alpha, hrec] at h

/-- `split_palette` only ever fails with `InvalidPalette`. -/
theorem split_palette_error_eq :
    ∀ (l : List Nat) (e : MergeError), split_palette l = .error e → e = .invalidPalette
  | [], e => by intro h; simp [split_palette] at h
  | [a], e => by intro h; simp [split_palette] at h; exact h.symm
  | [a, b], e => by intro h; simp [split_palette] at h; exact h.symm
  | a :: b :: c :: rest, e => by
      intro h
      cases hrec : split_palette rest with
      | error e' =>
          simp [split_palette, hrec] at h
          exact h ▸ split_palette_error_eq rest e' hrec
      | ok tail => simp [split_palette, hrec] at h

/-- The merge write-back loop only ever fails with `LessDataSize`. -/
theorem merge_loop_error_eq :
    ∀ (count i : Nat) (buf mask : List Nat) (e : MergeError),
      merge_loop count i buf mask = .error e → e = .lessDataSize := by
  intro count
  induction count with
  | zero => intro i buf mask e h; simp [merge_loop] at h
  | succ count ih =>
      intro i buf mask e h
      cases h1 : buf[i * 4 + 3]? with
      | none => simp [merge_loop, h1] at h; exact h.symm
      | some t =>
          cases h2 : mask[i]? with
          | none => simp [merge_loop, h1, h2] at h; exact h.symm
          | some v =>
              simp only [merge_loop, h1, h2] at h
              exact ih _ _ _ _ h

/-- `buf_to_rgba` never reports a dimension mismatch. -/
theorem buf_to_rgba_error_ne_size :
    ∀ (buf : List Nat) (ps : Nat) (info : Info) (e : MergeError),
      buf_to_rgba buf ps info = .error e → e ≠ .sizePngAndPnaAreDifferent := by
  intro buf ps info e h
  obtain ⟨w, ht, d, ct, pal⟩ := info
  cases ct with
  | grayscale =>
      cases hb : read_bytes_for_bit_depth_8 buf d with
      | error e' =>
          simp [buf_to_rgba, hb] at h
          rw [← h]
          have := read_bytes8_error_eq buf d e' hb
          simp [this]
      | ok bytes =>
          simp [buf_to_rgba, hb] at h
          have := grayscale_to_rgba_error_eq ps bytes e h
          simp [this]
  | rgb =>
      cases hb : read_bytes_for_bit_depth_8 buf d with
      | error e' =>
          simp [buf_to_rgba, hb] at h
          rw [← h]
          have := read_bytes8_error_eq buf d e' hb
          simp [this]
      | ok bytes =>
          simp [buf_to_rgba, hb] at h
          have := rgb_to_rgba_error_eq ps bytes e h
          simp [this]
  | grayscaleAlpha =>
      cases hb : read_bytes_for_bit_depth_8 buf d with
      | error e' =>
          simp [buf_to_rgba, hb] at h
          rw [← h]
          have := read_bytes8_error_eq buf d e' hb
          simp [this]
      | ok bytes =>
          simp [buf_to_rgba, hb] at h
          have := grayscale_alpha_to_rgba_error_eq ps bytes e h
          simp [this]
  | rgba =>
      cases hb : read_bytes_for_bit_depth_8 buf d with
      | error e' =>
          simp [buf_to_rgba, hb] at h
          rw [← h]
          have := read_bytes8_error_eq buf d e' hb
          simp [this]
      | ok bytes =>
          simp [buf_to_rgba, hb] at h
          split at h
          · simp at h; simp [← h]
          · simp at h
  | indexed =>
      cases hb : read_bytes_for_usize buf d with
      | error e' =>
          simp [buf_to_rgba, hb] at h
          rw [← h]
          have := read_bytes_usize_error_eq buf d e' hb
          simp [this]
      | ok indices =>
          cases pal with
          | none => simp [buf_to_rgba, hb] at h; simp [← h]
          | some v =>
              cases hsp : split_palette v with
              | error e' =>
                  simp [buf_to_rgba, hb, hsp] at h
                  rw [← h]
                  have := split_palette_error_eq v e' hsp
                  simp [this]
              | ok palette =>
                  simp [buf_to_rgba, hb, hsp] at h
                  rcases indexed_to_rgba_error_mem palette ps indices e h with h2 | h2 <;>
                    simp [h2]

/-- `buf_to_alpha_mask` never reports a dimension mismatch. -/
theorem buf_to_alpha_mask_error_ne_size :
    ∀ (buf : List Nat) (ps : Nat) (info : Info) (e : MergeError),
      buf_to_alpha_mask buf ps info = .error e → e ≠ .sizePngAndPnaAreDifferent := by
  intro buf ps info e h
  obtain ⟨w, ht, d, ct, pal⟩ := info
  cases ct with
  | grayscale =>
      cases hb : read_bytes_for_bit_depth_8 buf d with
      | error e' =>
          simp [buf_to_alpha_mask, hb] at h
          rw [← h]
          have := read_bytes8_error_eq buf d e' hb
          simp [this]
      | ok bytes =>
          simp [buf_to_alpha_mask, hb] at h
          split at h
          · simp at h; simp [← h]
          · simp at h
  | rgb =>
      cases hb : read_bytes_for_bit_depth_8 buf d with
      | error e' =>
          simp [buf_to_alpha_mask, hb] at h
          rw [← h]
          have := read_bytes8_error_eq buf d e' hb
          simp [this]
      | ok bytes =>
          simp [buf_to_alpha_mask, hb] at h
          have := rgb_to_alpha_error_eq ps bytes e h
          simp [this]
  | grayscaleAlpha =>
      cases hb : read_bytes_for_bit_depth_8 buf d with
      | error e' =>
          simp [buf_to_alpha_mask, hb] at h
          rw [← h]
          have := read_bytes8_error_eq buf d e' hb
          simp [this]
      | ok bytes =>
          simp [buf_to_alpha_mask, hb] at h
          have := grayscale_alpha_to_alpha_error_eq ps bytes e h
          simp [this]
  | rgba =>
      cases hb : read_bytes_for_bit_depth_8 buf d with
      | error e' =>
          simp [buf_to_alpha_mask, hb] at h
          rw [← h]
          have := read_bytes8_error_eq buf d e' hb
          simp [this]
      | ok bytes =>
          simp [buf_to_alpha_mask, hb] at h
          have := rgba_to_alpha_error_eq ps bytes e h
          simp [this]
  | indexed =>
      cases hb : read_bytes_for_usize buf d with
      | error e' =>
          simp [buf_to_alpha_mask, hb] at h
          rw [← h]
          have := read_bytes_usize_error_eq buf d e' hb
          simp [this]
      | ok indices =>
          cases pal with
          | none => simp [buf_to_alpha_mask, hb] at h; simp [← h]
          | some v =>
              cases hsp : split_palette v with
              | error e' =>
                  simp [buf_to_alpha_mask, hb, hsp] at h
                  rw [← h]
                  have := split_palette_error_eq v e' hsp
                  simp [this]
              | ok palette =>
                  simp [buf_to_alpha_mask, hb, hsp] at h
                  rcases indexed_to_alpha_error_mem palette ps indices e h with h2 | h2 <;>
                    simp [h2]

/-- C3: `merge_pna` returns `SizePngAndPnaAreDifferent` exactly when the two
widths differ or the two heights differ; in that case it fails without looking
at either pixel buffer (the result is the same for all buffers), and with
equal dimensions the error is never produced. -/
theorem claim3 (png_buf : List Nat) (png_info : Info) (pna_buf : List Nat) (pna_info : Info) :
    (merge_pna png_buf png_info pna_buf pna_info = .error .sizePngAndPnaAreDifferent ↔
      (png_info.width ≠ pna_info.width ∨ png_info.height ≠ pna_info.height)) ∧
    ((png_info.width ≠ pna_info.width ∨ png_info.height ≠ pna_info.height) →
      ∀ png_buf' pna_buf' : List Nat,
        merge_pna png_buf' png_info pna_buf' pna_info = .error .sizePngAndPnaAreDifferent) := by
  constructor
  · constructor
    · intro h
      by_contra hdim
      rw [merge_pna, if_neg hdim] at h
      cases hr : buf_to_rgba png_buf (png_info.width * png_info.height) png_info with
      | error e =>
          rw [hr] at h
          simp at h
          exact buf_to_rgba_error_ne_size _ _ _ _ hr h
      | ok png_rgba =>
          rw [hr] at h
          cases ha : buf_to_alpha_mask pna_buf (png_info.width * png_info.height) pna_info with
          | error e =>
              rw [ha] at h
              simp at h
              exact buf_to_alpha_mask_error_ne_size _ _ _ _ ha h
          | ok mask =>
              rw [ha] at h
              simp at h
              have := merge_loop_error_eq _ _ _ _ _ h
              simp at this
    · intro hdim
      rw [merge_pna, if_pos hdim]
  · intro hdim png_buf' pna_buf'
    rw [merge_pna, if_pos hdim]

/-- Witness for C3: a 1×1 image against a 2×1 image fails with the
dimension-mismatch error regardless of the buffers. -/
theorem claim3_witness :
    merge_pna [] (Info.mk 1 1 .eight .rgb none) [] (Info.mk 2 1 .eight .rgb none) =
      .error .sizePngAndPnaAreDifferent :=
  (claim3 [] (Info.mk 1 1 .eight .rgb none) [] (Info.mk 2 1 .eight .rgb none)).2
    (by decide) [] []

set_option maxRecDepth 10000 in
/-- C6 counterexample: the byte 0b11000000 at depth 1 decodes (MSB-first) to
the indices 1,1,0,0,0,0,0,0 — not to the alternating 1,0,1,0 the claim
states — and with the palette [(255,0,0),(0,0,255)] the four pixels come out
blue, blue, red, red rather than alternating blue/red. -/
theorem claim6_counterexample :
    read_bytes_for_usize [0b11000000] .one = .ok [1, 1, 0, 0, 0, 0, 0, 0] ∧
    read_bytes_for_usize [0b11000000] .one ≠ .ok [1, 0, 1, 0, 0, 0, 0, 0] ∧
    buf_to_rgba [0b11000000] 4 (Info.mk 2 2 .one .indexed (some [255, 0, 0, 0, 0, 255])) =
      .ok [0, 0, 255, 255, 0, 0, 255, 255, 255, 0, 0, 255, 255, 0, 0, 255] ∧
    buf_to_rgba [0b11000000] 4 (Info.mk 2 2 .one .indexed (some [255, 0, 0, 0, 0, 255])) ≠
      .ok [0, 0, 255, 255, 255, 0, 0, 255, 0, 0, 255, 255, 255, 0, 0, 255] := by
  decide

set_option maxRecDepth 10000 in
/-- C6 (amended): normalizing the byte 0b11000000 at depth 1 under Indexed
with palette [(255,0,0),(0,0,255)] decodes the indices 1,1,0,0 (MSB-first)
for the four pixels and yields blue-opaque, blue-opaque, red-opaque,
red-opaque. -/
theorem claim6 :
    read_bytes_for_usize [0b11000000] .one = .ok [1, 1, 0, 0, 0, 0, 0, 0] ∧
    buf_to_rgba [0b11000000] 4 (Info.mk 2 2 .one .indexed (some [255, 0, 0, 0, 0, 255])) =
      .ok [0, 0, 255, 255, 0, 0, 255, 255, 255, 0, 0, 255, 255, 0, 0, 255] := by
  decide

set_option maxRecDepth 10000 in
/-- At depth 16, masking a left-shifted byte with 0xFF00 keeps it unchanged. -/
theorem land_ff00 : ∀ t1 < 256, (t1 * 256) &&& 0b1111111100000000 = t1 * 256 := by
  decide

/-- The 16-bit index-mode combination of two bytes equals big-endian
`t1 * 256 + t2`. -/
theorem usize_sixteen_value (t1 t2 : Nat) (h1 : t1 < 256) (h2 : t2 < 256) :
    (((t1 <<< 8) % 65536) &&& 0b1111111100000000) + t2 % 256 = t1 * 256 + t2 := by
  have e1 : t1 <<< 8 = t1 * 256 := by rw [Nat.shiftLeft_eq]
  have e2 : (t1 * 256) % 65536 = t1 * 256 := Nat.mod_eq_of_lt (by omega)
  rw [e1, e2, land_ff00 t1 h1, Nat.mod_eq_of_lt h2]

/-- The 16-bit scaled-mode combination of two bytes keeps only the high byte. -/
theorem scaled_sixteen_value (t1 t2 : Nat) (h1 : t1 < 256) (h2 : t2 < 256) :
    (((t1 <<< 8) % 65536 ||| t2 % 256) >>> 8) % 256 = t1 := by
  have e1 : t1 <<< 8 = t1 * 256 := by rw [Nat.shiftLeft_eq]
  have e2 : (t1 * 256) % 65536 = t1 * 256 := Nat.mod_eq_of_lt (by omega)
  have e3 : t2 % 256 = t2 := Nat.mod_eq_of_lt h2
  rw [e1, e2, e3]
  have e4 : (t1 * 256 ||| t2) >>> 8 = t1 := by
    apply Nat.eq_of_testBit_eq
    intro j
    rw [Nat.testBit_shiftRight, Nat.testBit_lor]
    have ht2 : t2.testBit (8 + j) = false :=
      Nat.testBit_lt_two_pow (lt_of_lt_of_le h2 (by
        have : (256 : Nat) = 2 ^ 8 := by norm_num
        rw [this]
        exact Nat.pow_le_pow_right (by norm_num) (by omega)))
    have ht1 : (t1 * 256).testBit (8 + j) = t1.testBit j := by
      rw [← e1, Nat.testBit_shiftLeft]
      simp
    rw [ht1, ht2, Bool.or_false]
  rw [e4, Nat.mod_eq_of_lt h1]

set_option maxRecDepth 40000 in
/-- C10: in index mode at depth 16 each decoded index is the full big-endian
16-bit value `t1 * 256 + t2` of its two bytes (range 0..65535) — the low byte
is kept, unlike scaled mode, which keeps only `t1` — and an index above 255
is then checked against the palette like any other index. -/
theorem claim10 (t1 t2 : Nat) (rest : List Nat) (h1 : t1 < 256) (h2 : t2 < 256) :
    read_bytes_for_usize (t1 :: t2 :: rest) .sixteen =
      (read_bytes_for_usize rest .sixteen).map (fun tail => (t1 * 256 + t2) :: tail) ∧
    t1 * 256 + t2 < 65536 ∧
    read_bytes_for_bit_depth_8 (t1 :: t2 :: rest) .sixteen =
      (read_bytes_for_bit_depth_8 rest .sixteen).map (fun tail => t1 :: tail) ∧
    buf_to_rgba [1, 0] 1 (Info.mk 1 1 .sixteen .indexed (some (List.replicate 768 0))) =
      .error .invalidIndexForPalette := by
  refine ⟨?_, by omega, ?_, by rfl⟩
  · cases hr : read_bytes_for_usize rest .sixteen with
    | error e =>
        simp [read_bytes_for_usize, hr, Except.map]
    | ok tail =>
        simp [read_bytes_for_usize, hr, Except.map, usize_sixteen_value t1 t2 h1 h2]
  · cases hr : read_bytes_for_bit_depth_8 rest .sixteen with
    | error e =>
        simp [read_bytes_for_bit_depth_8, hr, Except.map]
    | ok tail =>
        simp [read_bytes_for_bit_depth_8, hr, Except.map, scaled_sixteen_value t1 t2 h1 h2]

/-- Witness for C10 at the bytes 1, 2. -/
theorem claim10_witness :
    read_bytes_for_usize [1, 2] .sixteen =
      (read_bytes_for_usize ([] : List Nat) .sixteen).map
        (fun tail => (1 * 256 + 2) :: tail) :=
  (claim10 1 2 [] (by decide) (by decide)).1

/-- The indexed RGBA loop reports `InvalidIndexForPalette` exactly when some
index among the first `n` consumed is out of palette range. -/
theorem indexed_to_rgba_invalid_iff (pal : List (Nat × Nat × Nat)) :
    ∀ (n : Nat) (l : List Nat),
      (indexed_to_rgba pal n l = .error .invalidIndexForPalette ↔
        ∃ i ∈ l.take n, pal.length ≤ i) := by
  intro n
  induction n with
  | zero => intro l; simp [indexed_to_rgba]
  | succ n ih =>
      intro l
      cases l with
      | nil => simp [indexed_to_rgba]
      | cons i rest =>
          cases hp : pal[i]? with
          | none =>
              have hlen : pal.length ≤ i := by
                by_contra hc
                push_neg at hc
                rw [List.getElem?_eq_getElem hc] at hp
                exact Option.noConfusion hp
              simp only [indexed_to_rgba, hp]
              constructor
              · intro _
                exact ⟨i, by simp [List.take_succ_cons], hlen⟩
              · intro _
                trivial
          | some p =>
              have hlt : i < pal.length := by
                by_contra hc
                push_neg at hc
                rw [List.getElem?_eq_none hc] at hp
                exact Option.noConfusion hp
              cases hrec : indexed_to_rgba pal n rest with
              | error e' =>
                  simp only [indexed_to_rgba, hp, hrec]
                  constructor
                  · intro he
                    have he' : e' = .invalidIndexForPalette := by
                      exact (Except.error.injEq _ _).mp he
                    obtain ⟨j, hj, hjl⟩ := (ih rest).mp (he' ▸ hrec)
                    exact ⟨j, by rw [List.take_succ_cons, List.mem_cons]; exact Or.inr hj, hjl⟩
                  · rintro ⟨j, hj, hjl⟩
                    rw [List.take_succ_cons, List.mem_cons] at hj
                    rcases hj with rfl | hj
                    · omega
                    · have := (ih rest).mpr ⟨j, hj, hjl⟩
                      rw [hrec] at this
                      rw [(Except.error.injEq _ _).mp this]
              | ok tail =>
                  simp only [indexed_to_rgba, hp, hrec]
                  constructor
                  · intro he
                    exact absurd he (by simp)
                  · rintro ⟨j, hj, hjl⟩
                    rw [List.take_succ_cons, List.mem_cons] at hj
                    rcases hj with rfl | hj
                    · omega
                    · have := (ih rest).mpr ⟨j, hj, hjl⟩
                      rw [hrec] at this
                      exact absurd this (by simp)

/-- The indexed alpha-mask loop reports `InvalidIndexForPalette` exactly when
some index among the first `n` consumed is out of palette range. -/
theorem indexed_to_alpha_invalid_iff (pal : List (Nat × Nat × Nat)) :
    ∀ (n : Nat) (l : List Nat),
      (indexed_to_alpha pal n l = .error .invalidIndexForPalette ↔
        ∃ i ∈ l.take n, pal.length ≤ i) := by
  intro n
  induction n with
  | zero => intro l; simp [indexed_to_alpha]
  | succ n ih =>
      intro l
      cases l with
      | nil => simp [indexed_to_alpha]
      | cons i rest =>
          cases hp : pal[i]? with
          | none =>
              have hlen : pal.length ≤ i := by
                by_contra hc
                push_neg at hc
                rw [List.getElem?_eq_getElem hc] at hp
                exact Option.noConfusion hp
              simp only [indexed_to_alpha, hp]
              constructor
              · intro _
                exact ⟨i, by simp [List.take_succ_cons], hlen⟩
              · intro _
                trivial
          | some p =>
              have hlt : i < pal.length := by
                by_contra hc
                push_neg at hc
                rw [List.getElem?_eq_none hc] at hp
                exact Option.noConfusion hp
              cases hrec : indexed_to_alpha pal n rest with
              | error e' =>
                  simp only [indexed_to_alpha, hp, hrec]
                  constructor
                  · intro he
                    have he' : e' = .invalidIndexForPalette := by
                      exact (Except.error.injEq _ _).mp he
                    obtain ⟨j, hj, hjl⟩ := (ih rest).mp (he' ▸ hrec)
                    exact ⟨j, by rw [List.take_succ_cons, List.mem_cons]; exact Or.inr hj, hjl⟩
                  · rintro ⟨j, hj, hjl⟩
                    rw [List.take_succ_cons, List.mem_cons] at hj
                    rcases hj with rfl | hj
                    · omega
                    · have := (ih rest).mpr ⟨j, hj, hjl⟩
                      rw [hrec] at this
                      rw [(Except.error.injEq _ _).mp this]
              | ok tail =>
                  simp only [indexed_to_alpha, hp, hrec]
                  constructor
                  · intro he
                    exact absurd he (by simp)
                  · rintro ⟨j, hj, hjl⟩
                    rw [List.take_succ_cons, List.mem_cons] at hj
                    rcases hj with rfl | hj
                    · omega
                    · have := (ih rest).mpr ⟨j, hj, hjl⟩
                      rw [hrec] at this
                      exact absurd this (by simp)

/-- C8: under the Indexed color model with a present, well-formed palette,
both normalization and alpha-mask derivation fail with
`InvalidIndexForPalette` precisely when some decoded index among the first
width·height is at least the number of palette entries; when every such index
is in range the error is never produced. -/
theorem claim8 (buf : List Nat) (ps : Nat) (info : Info) (indices : List Nat)
    (pal : List Nat) (entries : List (Nat × Nat × Nat))
    (hct : info.color_type = .indexed)
    (hpal : info.palette = some pal)
    (hidx : read_bytes_for_usize buf info.bit_depth = .ok indices)
    (hsp : split_palette pal = .ok entries) :
    (buf_to_rgba buf ps info = .error .invalidIndexForPalette ↔
      ∃ i ∈ indices.take ps, entries.length ≤ i) ∧
    (buf_to_alpha_mask buf ps info = .error .invalidIndexForPalette ↔
      ∃ i ∈ indices.take ps, entries.length ≤ i) := by
  obtain ⟨w, ht, d, ct, palette⟩ := info
  simp only at hct hpal hidx
  subst hct
  subst hpal
  constructor
  · rw [buf_to_rgba]
    simp only [hidx, hsp]
    exact indexed_to_rgba_invalid_iff entries ps indices
  · rw [buf_to_alpha_mask]
    simp only [hidx, hsp]
    exact indexed_to_alpha_invalid_iff entries ps indices

/-- Witness for C8: one decoded index 2 against the single-entry palette
[(9,9,9)] is out of range and the error is produced. -/
theorem claim8_witness :
    (buf_to_rgba [2] 1 (Info.mk 1 1 .eight .indexed (some [9, 9, 9])) =
        .error .invalidIndexForPalette ↔
      ∃ i ∈ ([2] : List Nat).take 1, ([(9, 9, 9)] : List (Nat × Nat × Nat)).length ≤ i) ∧
    (buf_to_alpha_mask [2] 1 (Info.mk 1 1 .eight .indexed (some [9, 9, 9])) =
        .error .invalidIndexForPalette ↔
      ∃ i ∈ ([2] : List Nat).take 1, ([(9, 9, 9)] : List (Nat × Nat × Nat)).length ≤ i) :=
  claim8 [2] 1 (Info.mk 1 1 .eight .indexed (some [9, 9, 9])) [2] [9, 9, 9] [(9, 9, 9)]
    rfl rfl rfl rfl

/-- A successful merge write-back loop keeps the buffer length and rewrites
exactly the bytes at positions `4k+3` for the pixels `k` it visits, taking
each new value from the mask at index `k`. -/
theorem merge_loop_spec :
    ∀ (count i : Nat) (buf mask out : List Nat),
      merge_loop count i buf mask = .ok out →
      out.length = buf.length ∧
      ∀ j : Nat,
        ((j % 4 = 3 ∧ i ≤ j / 4 ∧ j / 4 < i + count) → out[j]? = mask[j / 4]?) ∧
        (¬(j % 4 = 3 ∧ i ≤ j / 4 ∧ j / 4 < i + count) → out[j]? = buf[j]?) := by
  intro count
  induction count with
  | zero =>
      intro i buf mask out h
      simp only [merge_loop, Except.ok.injEq] at h
      subst h
      exact ⟨rfl, fun j => ⟨fun hw => absurd hw (by omega), fun _ => rfl⟩⟩
  | succ count ih =>
      intro i buf mask out h
      cases h1 : buf[i * 4 + 3]? with
      | none => rw [merge_loop, h1] at h; exact absurd h (by simp)
      | some t =>
          cases h2 : mask[i]? with
          | none => rw [merge_loop, h1, h2] at h; exact absurd h (by simp)
          | some v =>
              rw [merge_loop, h1, h2] at h
              obtain ⟨hlen, hspec⟩ := ih (i + 1) (buf.set (i * 4 + 3) v) mask out h
              have hbound : i * 4 + 3 < buf.length := by
                by_contra hc
                push_neg at hc
                rw [List.getElem?_eq_none hc] at h1
                exact Option.noConfusion h1
              refine ⟨by rw [hlen, List.length_set], fun j => ⟨?_, ?_⟩⟩
              · rintro ⟨hj4, hjlo, hjhi⟩
                by_cases hji : j / 4 = i
                · have hj : j = i * 4 + 3 := by omega
                  have hnw : ¬(j % 4 = 3 ∧ i + 1 ≤ j / 4 ∧ j / 4 < i + 1 + count) := by omega
                  rw [(hspec j).2 hnw, hji, h2, hj, List.getElem?_set_self hbound]
                · have hw : j % 4 = 3 ∧ i + 1 ≤ j / 4 ∧ j / 4 < i + 1 + count := by omega
                  exact (hspec j).1 hw
              · intro hnw
                have hnw' : ¬(j % 4 = 3 ∧ i + 1 ≤ j / 4 ∧ j / 4 < i + 1 + count) := by omega
                have hne : i * 4 + 3 ≠ j := by omega
                rw [(hspec j).2 hnw', List.getElem?_set_ne hne]

/-- C2: whenever `merge_pna` succeeds, the output keeps, for every pixel `i`,
the R, G and B bytes of pixel `i` of the normalized image-1 RGBA buffer, and
carries as its alpha byte the `i`-th byte of the image-2 alpha mask; every
byte outside the rewritten alpha positions agrees with the normalized
image-1 buffer. -/
theorem claim2 (png_buf : List Nat) (png_info : Info) (pna_buf : List Nat) (pna_info : Info)
    (out rgba1 alpha2 : List Nat)
    (hm : merge_pna png_buf png_info pna_buf pna_info = .ok out)
    (h1 : buf_to_rgba png_buf (png_info.width * png_info.height) png_info = .ok rgba1)
    (h2 : buf_to_alpha_mask pna_buf (png_info.width * png_info.height) pna_info = .ok alpha2) :
    out.length = rgba1.length ∧
    (∀ i < png_info.width * png_info.height,
      out[4 * i]? = rgba1[4 * i]? ∧ out[4 * i + 1]? = rgba1[4 * i + 1]? ∧
      out[4 * i + 2]? = rgba1[4 * i + 2]? ∧ out[4 * i + 3]? = alpha2[i]?) ∧
    (∀ j, ¬(j % 4 = 3 ∧ j / 4 < png_info.width * png_info.height) →
      out[j]? = rgba1[j]?) := by
  rw [merge_pna] at hm
  split at hm
  · exact absurd hm (by simp)
  · rw [h1, h2] at hm
    obtain ⟨hlen, hspec⟩ := merge_loop_spec _ 0 _ _ _ hm
    refine ⟨hlen, fun i hi => ⟨?_, ?_, ?_, ?_⟩, fun j hj => ?_⟩
    · exact (hspec (4 * i)).2 (by omega)
    · exact (hspec (4 * i + 1)).2 (by omega)
    · exact (hspec (4 * i + 2)).2 (by omega)
    · have hw := (hspec (4 * i + 3)).1 (by omega)
      rwa [show (4 * i + 3) / 4 = i by omega] at hw
    · exact (hspec j).2 (by omega)

/-- Witness for C2 on the repository's own merge test: the alpha byte of
pixel 0 of the output equals byte 0 of the mask. -/
theorem claim2_witness :
    ([255, 255, 255, 0, 255, 255, 255, 0] : List Nat)[4 * 0 + 3]? =
      ([0, 0] : List Nat)[0]? :=
  ((claim2 [255, 255, 255, 255, 255, 255] (Info.mk 2 1 .eight .rgb none) [0, 0]
      (Info.mk 2 1 .eight .grayscale none)
      [255, 255, 255, 0, 255, 255, 255, 0]
      [255, 255, 255, 255, 255, 255, 255, 255] [0, 0]
      rfl rfl rfl).2.1 0 (by decide)).2.2.2

/-- `resize` always yields exactly the requested length. -/
theorem resize_length (l : List Nat) (n : Nat) : (resize l n).length = n := by
  simp [resize, List.length_take, List.length_replicate]
  omega

/-- A successful grayscale RGBA loop yields 4 bytes per pixel. -/
theorem grayscale_to_rgba_length :
    ∀ (n : Nat) (l r : List Nat), grayscale_to_rgba n l = .ok r → r.length = n * 4 := by
  intro n
  induction n with
  | zero =>
      intro l r h
      simp only [grayscale_to_rgba, Except.ok.injEq] at h
      subst h
      rfl
  | succ n ih =>
      intro l r h
      cases l with
      | nil => simp [grayscale_to_rgba] at h
      | cons g rest =>
          cases hrec : grayscale_to_rgba n rest with
          | error e => rw [grayscale_to_rgba, hrec] at h; exact absurd h (by simp)
          | ok tail =>
              rw [grayscale_to_rgba, hrec] at h
              simp only [Except.ok.injEq] at h
              subst h
              have ht := ih rest tail hrec
              simp only [List.length_cons]
              omega

/-- A successful RGB RGBA loop yields 4 bytes per pixel. -/
theorem rgb_to_rgba_length :
    ∀ (n : Nat) (l r : List Nat), rgb_to_rgba n l = .ok r → r.length = n * 4 := by
  intro n
  induction n with
  | zero =>
      intro l r h
      simp only [rgb_to_rgba, Except.ok.injEq] at h
      subst h
      rfl
  | succ n ih =>
      intro l r h
      match l with
      | [] => simp [rgb_to_rgba] at h
      | [a] => simp [rgb_to_rgba] at h
      | [a, b] => simp [rgb_to_rgba] at h
      | a :: b :: c :: rest =>
          cases hrec : rgb_to_rgba n rest with
          | error e => rw [rgb_to_rgba, hrec] at h; exact absurd h (by simp)
          | ok tail =>
              rw [rgb_to_rgba, hrec] at h
              simp only [Except.ok.injEq] at h
              subst h
              have ht := ih rest tail hrec
              simp only [List.length_cons]
              omega

/-- A successful grayscale-alpha RGBA loop yields 4 bytes per pixel. -/
theorem grayscale_alpha_to_rgba_length :
    ∀ (n : Nat) (l r : List Nat), grayscale_alpha_to_rgba n l = .ok r → r.length = n * 4 := by
  intro n
  induction n with
  | zero =>
      intro l r h
      simp only [grayscale_alpha_to_rgba, Except.ok.injEq] at h
      subst h
      rfl
  | succ n ih =>
      intro l r h
      match l with
      | [] => simp [grayscale_alpha_to_rgba] at h
      | [g] => simp [grayscale_alpha_to_rgba] at h
      | g :: a :: rest =>
          cases hrec : grayscale_alpha_to_rgba n rest with
          | error e => rw [grayscale_alpha_to_rgba, hrec] at h; exact absurd h (by simp)
          | ok tail =>
              rw [grayscale_alpha_to_rgba, hrec] at h
              simp only [Except.ok.injEq] at h
              subst h
              have ht := ih rest tail hrec
              simp only [List.length_cons]
              omega

/-- A successful indexed RGBA loop yields 4 bytes per pixel. -/
theorem indexed_to_rgba_length (pal : List (Nat × Nat × Nat)) :
    ∀ (n : Nat) (l r : List Nat), indexed_to_rgba pal n l = .ok r → r.length = n * 4 := by
  intro n
  induction n with
  | zero =>
      intro l r h
      simp only [indexed_to_rgba, Except.ok.injEq] at h
      subst h
      rfl
  | succ n ih =>
      intro l r h
      cases l with
      | nil => simp [indexed_to_rgba] at h
      | cons i rest =>
          cases hp : pal[i]? with
          | none => rw [indexed_to_rgba, hp] at h; exact absurd h (by simp)
          | some p =>
              cases hrec : indexed_to_rgba pal n rest with
              | error e => rw [indexed_to_rgba, hp, hrec] at h; exact absurd h (by simp)
              | ok tail =>
                  rw [indexed_to_rgba, hp, hrec] at h
                  simp only [Except.ok.injEq] at h
                  subst h
                  have ht := ih rest tail hrec
                  simp only [List.length_cons]
                  omega

/-- A grayscale sample list shorter than the pixel count fails. -/
theorem grayscale_to_rgba_short :
    ∀ (n : Nat) (l : List Nat), l.length < n →
      grayscale_to_rgba n l = .error .lessDataSize := by
  intro n
  induction n with
  | zero => intro l h; exact absurd h (by omega)
  | succ n ih =>
      intro l h
      cases l with
      | nil => rfl
      | cons g rest =>
          have h' : rest.length < n := by simp only [List.length_cons] at h; omega
          rw [grayscale_to_rgba, ih rest h']

/-- A grayscale sample list at least as long as the pixel count succeeds. -/
theorem grayscale_to_rgba_ok :
    ∀ (n : Nat) (l : List Nat), n ≤ l.length →
      ∃ r, grayscale_to_rgba n l = .ok r := by
  intro n
  induction n with
  | zero => intro l h; exact ⟨[], rfl⟩
  | succ n ih =>
      intro l h
      cases l with
      | nil => simp at h
      | cons g rest =>
          obtain ⟨r, hr⟩ := ih rest (by simp only [List.length_cons] at h; omega)
          exact ⟨g :: g :: g :: 255 :: r, by rw [grayscale_to_rgba, hr]⟩

/-- An RGB sample list shorter than three samples per pixel fails. -/
theorem rgb_to_rgba_short :
    ∀ (n : Nat) (l : List Nat), l.length < n * 3 →
      rgb_to_rgba n l = .error .lessDataSize := by
  intro n
  induction n with
  | zero => intro l h; exact absurd h (by omega)
  | succ n ih =>
      intro l h
      match l with
      | [] => rfl
      | [a] => rfl
      | [a, b] => rfl
      | a :: b :: c :: rest =>
          have h' : rest.length < n * 3 := by simp only [List.length_cons] at h; omega
          rw [rgb_to_rgba, ih rest h']

/-- An RGB sample list with three samples per pixel available succeeds. -/
theorem rgb_to_rgba_ok :
    ∀ (n : Nat) (l : List Nat), n * 3 ≤ l.length →
      ∃ r, rgb_to_rgba n l = .ok r := by
  intro n
  induction n with
  | zero => intro l h; exact ⟨[], rfl⟩
  | succ n ih =>
      intro l h
      match l with
      | [] => simp only [List.length_nil] at h; omega
      | [a] => simp only [List.length_cons, List.length_nil] at h; omega
      | [a, b] => simp only [List.length_cons, List.length_nil] at h; omega
      | a :: b :: c :: rest =>
          obtain ⟨r, hr⟩ := ih rest (by simp only [List.length_cons] at h; omega)
          exact ⟨a :: b :: c :: 255 :: r, by rw [rgb_to_rgba, hr]⟩

/-- A grayscale-alpha sample list shorter than two samples per pixel fails. -/
theorem grayscale_alpha_to_rgba_short :
    ∀ (n : Nat) (l : List Nat), l.length < n * 2 →
      grayscale_alpha_to_rgba n l = .error .lessDataSize := by
  intro n
  induction n with
  | zero => intro l h; exact absurd h (by omega)
  | succ n ih =>
      intro l h
      match l with
      | [] => rfl
      | [g] => rfl
      | g :: a :: rest =>
          have h' : rest.length < n * 2 := by simp only [List.length_cons] at h; omega
          rw [grayscale_alpha_to_rgba, ih rest h']

/-- A grayscale-alpha sample list with two samples per pixel available succeeds. -/
theorem grayscale_alpha_to_rgba_ok :
    ∀ (n : Nat) (l : List Nat), n * 2 ≤ l.length →
      ∃ r, grayscale_alpha_to_rgba n l = .ok r := by
  intro n
  induction n with
  | zero => intro l h; exact ⟨[], rfl⟩
  | succ n ih =>
      intro l h
      match l with
      | [] => simp only [List.length_nil] at h; omega
      | [g] => simp only [List.length_cons, List.length_nil] at h; omega
      | g :: a :: rest =>
          obtain ⟨r, hr⟩ := ih rest (by simp only [List.length_cons] at h; omega)
          exact ⟨g :: g :: g :: a :: r, by rw [grayscale_alpha_to_rgba, hr]⟩

/-- An index list shorter than the pixel count fails when every available
index is in palette range. -/
theorem indexed_to_rgba_short (pal : List (Nat × Nat × Nat)) :
    ∀ (n : Nat) (l : List Nat), (∀ i ∈ l.take n, i < pal.length) → l.length < n →
      indexed_to_rgba pal n l = .error .lessDataSize := by
  intro n
  induction n with
  | zero => intro l _ h; exact absurd h (by omega)
  | succ n ih =>
      intro l hin h
      cases l with
      | nil => rfl
      | cons i rest =>
          have hi : i < pal.length := hin i (by simp [List.take_succ_cons])
          have hp : pal[i]? = some pal[i] := List.getElem?_eq_getElem hi
          have h' : rest.length < n := by simp only [List.length_cons] at h; omega
          have hin' : ∀ j ∈ rest.take n, j < pal.length := by
            intro j hj
            exact hin j (by rw [List.take_succ_cons, List.mem_cons]; exact Or.inr hj)
          rw [indexed_to_rgba, hp, ih rest hin' h']

/-- An index list covering the pixel count succeeds when every needed index
is in palette range. -/
theorem indexed_to_rgba_ok (pal : List (Nat × Nat × Nat)) :
    ∀ (n : Nat) (l : List Nat), (∀ i ∈ l.take n, i < pal.length) → n ≤ l.length →
      ∃ r, indexed_to_rgba pal n l = .ok r := by
  intro n
  induction n with
  | zero => intro l _ h; exact ⟨[], rfl⟩
  | succ n ih =>
      intro l hin h
      cases l with
      | nil => simp at h
      | cons i rest =>
          have hi : i < pal.length := hin i (by simp [List.take_succ_cons])
          have hp : pal[i]? = some pal[i] := List.getElem?_eq_getElem hi
          have hin' : ∀ j ∈ rest.take n, j < pal.length := by
            intro j hj
            exact hin j (by rw [List.take_succ_cons, List.mem_cons]; exact Or.inr hj)
          obtain ⟨r, hr⟩ := ih rest hin' (by simp only [List.length_cons] at h; omega)
          exact ⟨pal[i].1 :: pal[i].2.1 :: pal[i].2.2 :: 255 :: r,
            by rw [indexed_to_rgba, hp, hr]⟩

/-- Surplus grayscale samples beyond the pixel count do not change the result. -/
theorem grayscale_to_rgba_append :
    ∀ (n : Nat) (l extra : List Nat), n ≤ l.length →
      grayscale_to_rgba n (l ++ extra) = grayscale_to_rgba n l := by
  intro n
  induction n with
  | zero => intro l extra _; rfl
  | succ n ih =>
      intro l extra h
      cases l with
      | nil => simp at h
      | cons g rest =>
          have h' : n ≤ rest.length := by simp only [List.length_cons] at h; omega
          rw [List.cons_append, grayscale_to_rgba, grayscale_to_rgba, ih rest extra h']

/-- Surplus RGB samples beyond three per pixel do not change the result. -/
theorem rgb_to_rgba_append :
    ∀ (n : Nat) (l extra : List Nat), n * 3 ≤ l.length →
      rgb_to_rgba n (l ++ extra) = rgb_to_rgba n l := by
  intro n
  induction n with
  | zero => intro l extra _; rfl
  | succ n ih =>
      intro l extra h
      match l with
      | [] => simp only [List.length_nil] at h; omega
      | [a] => simp only [List.length_cons, List.length_nil] at h; omega
      | [a, b] => simp only [List.length_cons, List.length_nil] at h; omega
      | a :: b :: c :: rest =>
          have h' : n * 3 ≤ rest.length := by simp only [List.length_cons] at h; omega
          simp only [List.cons_append]
          rw [rgb_to_rgba, rgb_to_rgba, ih rest extra h']

/-- Surplus grayscale-alpha samples beyond two per pixel do not change the
result. -/
theorem grayscale_alpha_to_rgba_append :
    ∀ (n : Nat) (l extra : List Nat), n * 2 ≤ l.length →
      grayscale_alpha_to_rgba n (l ++ extra) = grayscale_alpha_to_rgba n l := by
  intro n
  induction n with
  | zero => intro l extra _; rfl
  | succ n ih =>
      intro l extra h
      match l with
      | [] => simp only [List.length_nil] at h; omega
      | [g] => simp only [List.length_cons, List.length_nil] at h; omega
      | g :: a :: rest =>
          have h' : n * 2 ≤ rest.length := by simp only [List.length_cons] at h; omega
          simp only [List.cons_append]
          rw [grayscale_alpha_to_rgba, grayscale_alpha_to_rgba, ih rest extra h']

/-- Surplus indices beyond the pixel count do not change the result. -/
theorem indexed_to_rgba_append (pal : List (Nat × Nat × Nat)) :
    ∀ (n : Nat) (l extra : List Nat), n ≤ l.length →
      indexed_to_rgba pal n (l ++ extra) = indexed_to_rgba pal n l := by
  intro n
  induction n with
  | zero => intro l extra _; rfl
  | succ n ih =>
      intro l extra h
      cases l with
      | nil => simp at h
      | cons i rest =>
          have h' : n ≤ rest.length := by simp only [List.length_cons] at h; omega
          rw [List.cons_append, indexed_to_rgba, indexed_to_rgba, ih rest extra h']

/-- Surplus bytes beyond the requested size do not change a `resize`. -/
theorem resize_append (n : Nat) (l extra : List Nat) (h : n ≤ l.length) :
    resize (l ++ extra) n = resize l n := by
  simp only [resize, List.take_append_of_le_length h, List.length_append]
  rw [Nat.sub_eq_zero_of_le h, Nat.sub_eq_zero_of_le (by omega)]

/-- A successful `buf_to_rgba` yields exactly `pixel_size * 4` bytes. -/
theorem buf_to_rgba_length (buf : List Nat) (ps : Nat) (info : Info) :
    ∀ r, buf_to_rgba buf ps info = .ok r → r.length = ps * 4 := by
  intro r h
  obtain ⟨w, ht, d, ct, palette⟩ := info
  cases ct with
  | grayscale =>
      cases hb : read_bytes_for_bit_depth_8 buf d with
      | error e => simp [buf_to_rgba, hb] at h
      | ok bytes =>
          simp only [buf_to_rgba, hb] at h
          exact grayscale_to_rgba_length ps bytes r h
  | rgb =>
      cases hb : read_bytes_for_bit_depth_8 buf d with
      | error e => simp [buf_to_rgba, hb] at h
      | ok bytes =>
          simp only [buf_to_rgba, hb] at h
          exact rgb_to_rgba_length ps bytes r h
  | grayscaleAlpha =>
      cases hb : read_bytes_for_bit_depth_8 buf d with
      | error e => simp [buf_to_rgba, hb] at h
      | ok bytes =>
          simp only [buf_to_rgba, hb] at h
          exact grayscale_alpha_to_rgba_length ps bytes r h
  | rgba =>
      cases hb : read_bytes_for_bit_depth_8 buf d with
      | error e => simp [buf_to_rgba, hb] at h
      | ok bytes =>
          simp only [buf_to_rgba, hb] at h
          split at h
          · exact absurd h (by simp)
          · simp only [Except.ok.injEq] at h
            subst h
            exact resize_length bytes (ps * 4)
  | indexed =>
      cases hb : read_bytes_for_usize buf d with
      | error e => simp [buf_to_rgba, hb] at h
      | ok indices =>
          simp only [buf_to_rgba, hb] at h
          cases palette with
          | none => simp at h
          | some v =>
              cases hsp : split_palette v with
              | error e => simp [hsp] at h
              | ok entries =>
                  simp only [hsp] at h
                  exact indexed_to_rgba_length entries ps indices r h

/-- A successful RGB alpha-mask loop yields one byte per pixel. -/
theorem rgb_to_alpha_length :
    ∀ (n : Nat) (l r : List Nat), rgb_to_alpha n l = .ok r → r.length = n := by
  intro n
  induction n with
  | zero =>
      intro l r h
      simp only [rgb_to_alpha, Except.ok.injEq] at h
      subst h
      rfl
  | succ n ih =>
      intro l r h
      match l with
      | [] => simp [rgb_to_alpha] at h
      | [a] => simp [rgb_to_alpha] at h
      | [a, b] => simp [rgb_to_alpha] at h
      | a :: b :: c :: rest =>
          cases hrec : rgb_to_alpha n rest with
          | error e => rw [rgb_to_alpha, hrec] at h; exact absurd h (by simp)
          | ok tail =>
              rw [rgb_to_alpha, hrec] at h
              simp only [Except.ok.injEq] at h
              subst h
              have ht := ih rest tail hrec
              simp only [List.length_cons]
              omega

/-- A successful indexed alpha-mask loop yields one byte per pixel. -/
theorem indexed_to_alpha_length (pal : List (Nat × Nat × Nat)) :
    ∀ (n : Nat) (l r : List Nat), indexed_to_alpha pal n l = .ok r → r.length = n := by
  intro n
  induction n with
  | zero =>
      intro l r h
      simp only [indexed_to_alpha, Except.ok.injEq] at h
      subst h
      rfl
  | succ n ih =>
      intro l r h
      cases l with
      | nil => simp [indexed_to_alpha] at h
      | cons i rest =>
          cases hp : pal[i]? with
          | none => rw [indexed_to_alpha, hp] at h; exact absurd h (by simp)
          | some p =>
              cases hrec : indexed_to_alpha pal n rest with
              | error e => rw [indexed_to_alpha, hp, hrec] at h; exact absurd h (by simp)
              | ok tail =>
                  rw [indexed_to_alpha, hp, hrec] at h
                  simp only [Except.ok.injEq] at h
                  subst h
                  have ht := ih rest tail hrec
                  simp only [List.length_cons]
                  omega

/-- A successful grayscale-alpha alpha-mask loop yields one byte per pixel. -/
theorem grayscale_alpha_to_alpha_length :
    ∀ (n : Nat) (l r : List Nat), grayscale_alpha_to_alpha n l = .ok r → r.length = n := by
  intro n
  induction n with
  | zero =>
      intro l r h
      simp only [grayscale_alpha_to_alpha, Except.ok.injEq] at h
      subst h
      rfl
  | succ n ih =>
      intro l r h
      match l with
      | [] => simp [grayscale_alpha_to_alpha] at h
      | [g] => simp [grayscale_alpha_to_alpha] at h
      | g :: a :: rest =>
          cases hrec : grayscale_alpha_to_alpha n rest with
          | error e => rw [grayscale_alpha_to_alpha, hrec] at h; exact absurd h (by simp)
          | ok tail =>
              rw [grayscale_alpha_to_alpha, hrec] at h
              simp only [Except.ok.injEq] at h
              subst h
              have ht := ih rest tail hrec
              simp only [List.length_cons]
              omega

/-- A successful RGBA alpha-mask loop yields one byte per pixel. -/
theorem rgba_to_alpha_length :
    ∀ (n : Nat) (l r : List Nat), rgba_to_alpha n l = .ok r → r.length = n := by
  intro n
  induction n with
  | zero =>
      intro l r h
      simp only [rgba_to_alpha, Except.ok.injEq] at h
      subst h
      rfl
  | succ n ih =>
      intro l r h
      match l with
      | [] => simp [rgba_to_alpha] at h
      | [a] => simp [rgba_to_alpha] at h
      | [a, b] => simp [rgba_to_alpha] at h
      | [a, b, c] => simp [rgba_to_alpha] at h
      | a :: b :: c :: d :: rest =>
          cases hrec : rgba_to_alpha n rest with
          | error e => rw [rgba_to_alpha, hrec] at h; exact absurd h (by simp)
          | ok tail =>
              rw [rgba_to_alpha, hrec] at h
              simp only [Except.ok.injEq] at h
              subst h
              have ht := ih rest tail hrec
              simp only [List.length_cons]
              omega

/-- A successful `buf_to_alpha_mask` yields exactly `pixel_size` bytes. -/
theorem buf_to_alpha_mask_length (buf : List Nat) (ps : Nat) (info : Info) :
    ∀ r, buf_to_alpha_mask buf ps info = .ok r → r.length = ps := by
  intro r h
  obtain ⟨w, ht, d, ct, palette⟩ := info
  cases ct with
  | grayscale =>
      cases hb : read_bytes_for_bit_depth_8 buf d with
      | error e => simp [buf_to_alpha_mask, hb] at h
      | ok bytes =>
          simp only [buf_to_alpha_mask, hb] at h
          split at h
          · exact absurd h (by simp)
          · simp only [Except.ok.injEq] at h
            subst h
            exact resize_length bytes ps
  | rgb =>
      cases hb : read_bytes_for_bit_depth_8 buf d with
      | error e => simp [buf_to_alpha_mask, hb] at h
      | ok bytes =>
          simp only [buf_to_alpha_mask, hb] at h
          exact rgb_to_alpha_length ps bytes r h
  | indexed =>
      cases hb : read_bytes_for_usize buf d with
      | error e => simp [buf_to_alpha_mask, hb] at h
      | ok indices =>
          simp only [buf_to_alpha_mask, hb] at h
          cases palette with
          | none => simp at h
          | some v =>
              cases hsp : split_palette v with
              | error e => simp [hsp] at h
              | ok entries =>
                  simp only [hsp] at h
                  exact indexed_to_alpha_length entries ps indices r h
  | grayscaleAlpha =>
      cases hb : read_bytes_for_bit_depth_8 buf d with
      | error e => simp [buf_to_alpha_mask, hb] at h
      | ok bytes =>
          simp only [buf_to_alpha_mask, hb] at h
          exact grayscale_alpha_to_alpha_length ps bytes r h
  | rgba =>
      cases hb : read_bytes_for_bit_depth_8 buf d with
      | error e => simp [buf_to_alpha_mask, hb] at h
      | ok bytes =>
          simp only [buf_to_alpha_mask, hb] at h
          exact rgba_to_alpha_length ps bytes r h

/-- The merge write-back loop succeeds whenever the RGBA buffer and the mask
are long enough for the pixels it visits. -/
theorem merge_loop_ok :
    ∀ (count i : Nat) (buf mask : List Nat),
      (i + count) * 4 ≤ buf.length → i + count ≤ mask.length →
      ∃ out, merge_loop count i buf mask = .ok out := by
  intro count
  induction count with
  | zero => intro i buf mask _ _; exact ⟨buf, rfl⟩
  | succ count ih =>
      intro i buf mask hbuf hmask
      have hb : i * 4 + 3 < buf.length := by omega
      have hm : i < mask.length := by omega
      obtain ⟨out, hout⟩ := ih (i + 1) (buf.set (i * 4 + 3) mask[i]) mask
        (by rw [List.length_set]; omega) (by omega)
      refine ⟨out, ?_⟩
      rw [merge_loop, List.getElem?_eq_getElem hb, List.getElem?_eq_getElem hm]
      exact hout

set_option maxRecDepth 10000 in
/-- C5 counterexample: under the Indexed model with the one-entry palette
[(255,0,0)], the single decoded index 1 is out of range, so normalizing one
byte for a 2-pixel grid — which has fewer samples than the grid requires —
fails with `InvalidIndexForPalette`, not with `LessDataSize` as the claim
states. -/
theorem claim5_counterexample :
    read_bytes_for_usize [1] .eight = .ok [1] ∧
    ([1] : List Nat).length < 2 ∧
    buf_to_rgba [1] 2 (Info.mk 1 2 .eight .indexed (some [255, 0, 0])) =
      .error .invalidIndexForPalette ∧
    buf_to_rgba [1] 2 (Info.mk 1 2 .eight .indexed (some [255, 0, 0])) ≠
      .error .lessDataSize := by
  decide

/-- C5 (amended): every successful normalization yields exactly
width·height·4 bytes; for the non-Indexed color models a sample shortfall
fails with `LessDataSize` and a sample surplus succeeds; for Indexed the same
holds provided the palette is present and well-formed and every decoded index
within the required range is in palette range; surplus samples never change
the result of any per-pixel loop; and whenever both images normalize
successfully with equal dimensions the merge itself still succeeds. -/
theorem claim5_amended (buf : List Nat) (ps : Nat) (info : Info) :
    (∀ r, buf_to_rgba buf ps info = .ok r → r.length = ps * 4) ∧
    (info.color_type ≠ .indexed →
      ∀ bytes, read_bytes_for_bit_depth_8 buf info.bit_depth = .ok bytes →
        (bytes.length < ps * channels info.color_type →
          buf_to_rgba buf ps info = .error .lessDataSize) ∧
        (ps * channels info.color_type ≤ bytes.length →
          ∃ r, buf_to_rgba buf ps info = .ok r)) ∧
    (∀ (indices pal : List Nat) (entries : List (Nat × Nat × Nat)),
      info.color_type = .indexed →
      info.palette = some pal →
      read_bytes_for_usize buf info.bit_depth = .ok indices →
      split_palette pal = .ok entries →
      (∀ i ∈ indices.take ps, i < entries.length) →
        (indices.length < ps → buf_to_rgba buf ps info = .error .lessDataSize) ∧
        (ps ≤ indices.length → ∃ r, buf_to_rgba buf ps info = .ok r)) ∧
    (∀ (n : Nat) (l extra : List Nat),
      (n ≤ l.length → grayscale_to_rgba n (l ++ extra) = grayscale_to_rgba n l) ∧
      (n * 3 ≤ l.length → rgb_to_rgba n (l ++ extra) = rgb_to_rgba n l) ∧
      (n * 2 ≤ l.length →
        grayscale_alpha_to_rgba n (l ++ extra) = grayscale_alpha_to_rgba n l) ∧
      (∀ pal : List (Nat × Nat × Nat), n ≤ l.length →
        indexed_to_rgba pal n (l ++ extra) = indexed_to_rgba pal n l) ∧
      (n * 4 ≤ l.length → resize (l ++ extra) (n * 4) = resize l (n * 4))) ∧
    (∀ (png_buf pna_buf : List Nat) (png_info pna_info : Info)
        (rgba1 alpha2 : List Nat),
      png_info.width = pna_info.width → png_info.height = pna_info.height →
      buf_to_rgba png_buf (png_info.width * png_info.height) png_info = .ok rgba1 →
      buf_to_alpha_mask pna_buf (png_info.width * png_info.height) pna_info =
        .ok alpha2 →
      ∃ out, merge_pna png_buf png_info pna_buf pna_info = .ok out) := by
  refine ⟨?_, ?_, ?_, ?_, ?_⟩
  · exact buf_to_rgba_length buf ps info
  · intro hne bytes hb
    obtain ⟨w, ht, d, ct, palette⟩ := info
    cases ct with
    | indexed => exact absurd rfl hne
    | grayscale =>
        constructor
        · intro hlt
          simp only [buf_to_rgba, hb]
          exact grayscale_to_rgba_short ps bytes
            (by simp only [channels] at hlt; omega)
        · intro hge
          obtain ⟨r, hr⟩ := grayscale_to_rgba_ok ps bytes
            (by simp only [channels] at hge; omega)
          exact ⟨r, by simp only [buf_to_rgba, hb]; exact hr⟩
    | rgb =>
        constructor
        · intro hlt
          simp only [buf_to_rgba, hb]
          exact rgb_to_rgba_short ps bytes
            (by simp only [channels] at hlt; omega)
        · intro hge
          obtain ⟨r, hr⟩ := rgb_to_rgba_ok ps bytes
            (by simp only [channels] at hge; omega)
          exact ⟨r, by simp only [buf_to_rgba, hb]; exact hr⟩
    | grayscaleAlpha =>
        constructor
        · intro hlt
          simp only [buf_to_rgba, hb]
          exact grayscale_alpha_to_rgba_short ps bytes
            (by simp only [channels] at hlt; omega)
        · intro hge
          obtain ⟨r, hr⟩ := grayscale_alpha_to_rgba_ok ps bytes
            (by simp only [channels] at hge; omega)
          exact ⟨r, by simp only [buf_to_rgba, hb]; exact hr⟩
    | rgba =>
        constructor
        · intro hlt
          simp only [buf_to_rgba, hb]
          rw [if_pos (show bytes.length < ps * 4 by simp only [channels] at hlt; omega)]
        · intro hge
          refine ⟨resize bytes (ps * 4), ?_⟩
          simp only [buf_to_rgba, hb]
          rw [if_neg (show ¬bytes.length < ps * 4 by simp only [channels] at hge; omega)]
  · intro indices pal entries hct hpal hidx hsp hin
    obtain ⟨w, ht, d, ct, palette⟩ := info
    simp only at hct hpal hidx
    subst hct
    subst hpal
    constructor
    · intro hlt
      simp only [buf_to_rgba, hidx, hsp]
      exact indexed_to_rgba_short entries ps indices hin hlt
    · intro hge
      obtain ⟨r, hr⟩ := indexed_to_rgba_ok entries ps indices hin hge
      exact ⟨r, by simp only [buf_to_rgba, hidx, hsp]; exact hr⟩
  · intro n l extra
    exact ⟨grayscale_to_rgba_append n l extra,
      rgb_to_rgba_append n l extra,
      grayscale_alpha_to_rgba_append n l extra,
      fun pal => indexed_to_rgba_append pal n l extra,
      resize_append (n * 4) l extra⟩
  · intro png_buf pna_buf png_info pna_info rgba1 alpha2 hw hh h1 h2
    have hdim : ¬(png_info.width ≠ pna_info.width ∨ png_info.height ≠ pna_info.height) := by
      push_neg
      exact ⟨hw, hh⟩
    have hl1 : rgba1.length = png_info.width * png_info.height * 4 :=
      buf_to_rgba_length _ _ _ rgba1 h1
    have hl2 : alpha2.length = png_info.width * png_info.height :=
      buf_to_alpha_mask_length _ _ _ alpha2 h2
    obtain ⟨out, hout⟩ :=
      merge_loop_ok (png_info.width * png_info.height) 0 rgba1 alpha2
        (by omega) (by omega)
    refine ⟨out, ?_⟩
    rw [merge_pna, if_neg hdim, h1, h2]
    exact hout

/-- Witness for C5 (amended) on a concrete grayscale image: one sample, one
pixel, output length 4. -/
theorem claim5_amended_witness :
    ([7, 7, 7, 255] : List Nat).length = 1 * 4 :=
  (claim5_amended [7] 1 (Info.mk 1 1 .eight .grayscale none)).1 [7, 7, 7, 255] rfl

/-- Every sample the per-byte scaled expansion emits for a byte fits in a byte. -/
theorem read_byte8_lt (t1 : Nat) (bit_depth : BitDepth) (h : t1 < 256) :
    ∀ y ∈ read_byte_for_bit_depth_8 t1 bit_depth, y < 256 := by
  intro y hy
  cases bit_depth with
  | one =>
      simp only [read_byte_for_bit_depth_8, List.mem_map, List.mem_range] at hy
      obtain ⟨i, _, rfl⟩ := hy
      split_ifs <;> omega
  | two =>
      simp only [read_byte_for_bit_depth_8, List.mem_map, List.mem_range] at hy
      obtain ⟨i, _, rfl⟩ := hy
      split_ifs <;> omega
  | four =>
      simp only [read_byte_for_bit_depth_8, List.mem_map, List.mem_range] at hy
      obtain ⟨i, _, rfl⟩ := hy
      split_ifs <;> omega
  | eight =>
      simp only [read_byte_for_bit_depth_8, List.mem_singleton] at hy
      omega
  | sixteen => simp [read_byte_for_bit_depth_8] at hy

/-- Scaled-mode unpacking of a byte buffer yields only byte-sized samples. -/
theorem read_bytes8_lt (buf : List Nat) (d : BitDepth) :
    ∀ r : List Nat, (∀ x ∈ buf, x < 256) → read_bytes_for_bit_depth_8 buf d = .ok r →
      ∀ y ∈ r, y < 256 := by
  induction buf, d using read_bytes_for_bit_depth_8.induct with
  | case1 d =>
      intro r _ h y hy
      simp only [read_bytes_for_bit_depth_8, Except.ok.injEq] at h
      subst h
      simp at hy
  | case2 t1 =>
      intro r _ h
      simp [read_bytes_for_bit_depth_8] at h
  | case3 t1 t2 rest2 e hrest ih =>
      intro r _ h
      simp [read_bytes_for_bit_depth_8, hrest] at h
  | case4 t1 t2 rest2 tail hrest ih =>
      intro r hbuf h y hy
      simp only [read_bytes_for_bit_depth_8, hrest, Except.ok.injEq] at h
      subst h
      rcases List.mem_cons.mp hy with rfl | hy
      · exact Nat.mod_lt _ (by omega)
      · exact ih tail (fun x hx => hbuf x (by simp [hx])) hrest y hy
  | case5 t1 rest bit_depth h1 h2 e hrest ih =>
      intro r hbuf h
      cases bit_depth with
      | sixteen =>
          cases rest with
          | nil => exact (h1 rfl rfl).elim
          | cons a b => exact (h2 a b rfl rfl).elim
      | one => simp [read_bytes_for_bit_depth_8, hrest] at h
      | two => simp [read_bytes_for_bit_depth_8, hrest] at h
      | four => simp [read_bytes_for_bit_depth_8, hrest] at h
      | eight => simp [read_bytes_for_bit_depth_8, hrest] at h
  | case6 t1 rest bit_depth h1 h2 tail hrest ih =>
      intro r hbuf h y hy
      have ht1 : t1 < 256 := hbuf t1 (by simp)
      have hrest' : ∀ x ∈ rest, x < 256 := fun x hx => hbuf x (by simp [hx])
      cases bit_depth with
      | sixteen =>
          cases rest with
          | nil => exact (h1 rfl rfl).elim
          | cons a b => exact (h2 a b rfl rfl).elim
      | one =>
          simp only [read_bytes_for_bit_depth_8, hrest, Except.ok.injEq] at h
          subst h
          rcases List.mem_append.mp hy with hy | hy
          · exact read_byte8_lt t1 .one ht1 y hy
          · exact ih tail hrest' hrest y hy
      | two =>
          simp only [read_bytes_for_bit_depth_8, hrest, Except.ok.injEq] at h
          subst h
          rcases List.mem_append.mp hy with hy | hy
          · exact read_byte8_lt t1 .two ht1 y hy
          · exact ih tail hrest' hrest y hy
      | four =>
          simp only [read_bytes_for_bit_depth_8, hrest, Except.ok.injEq] at h
          subst h
          rcases List.mem_append.mp hy with hy | hy
          · exact read_byte8_lt t1 .four ht1 y hy
          · exact ih tail hrest' hrest y hy
      | eight =>
          simp only [read_bytes_for_bit_depth_8, hrest, Except.ok.injEq] at h
          subst h
          rcases List.mem_append.mp hy with hy | hy
          · exact read_byte8_lt t1 .eight ht1 y hy
          · exact ih tail hrest' hrest y hy

/-- The grayscale arm of `buf_to_alpha_mask` computes, on byte-sized samples,
the composition of the grayscale arm of `buf_to_rgba` with the spec's
alpha-from-RGBA reduction. -/
theorem grayscale_alpha_mask_eq :
    ∀ (ps : Nat) (bytes : List Nat), (∀ x ∈ bytes, x < 256) →
      (if bytes.length < ps then (.error .lessDataSize : Except MergeError (List Nat))
        else .ok (resize bytes ps)) =
      (grayscale_to_rgba ps bytes).map alpha_from_rgba_spec := by
  intro ps
  induction ps with
  | zero =>
      intro bytes _
      simp [grayscale_to_rgba, resize, Except.map, alpha_from_rgba_spec]
  | succ ps ih =>
      intro bytes hb
      cases bytes with
      | nil => simp [grayscale_to_rgba, Except.map]
      | cons g rest =>
          have hg : g < 256 := hb g (List.mem_cons_self g rest)
          have hrest : ∀ x ∈ rest, x < 256 := fun x hx => hb x (List.mem_cons_of_mem g hx)
          have ih' := ih rest hrest
          cases hrec : grayscale_to_rgba ps rest with
          | error e =>
              rw [hrec] at ih'
              simp only [Except.map] at ih'
              simp only [grayscale_to_rgba, hrec, Except.map]
              split at ih'
              · rw [if_pos (by simp only [List.length_cons]; omega)]
                exact ih'
              · exact absurd ih' (by simp)
          | ok tail =>
              rw [hrec] at ih'
              simp only [Except.map] at ih'
              simp only [grayscale_to_rgba, hrec, Except.map]
              split at ih'
              · exact absurd ih' (by simp)
              · simp only [Except.ok.injEq] at ih'
                rw [if_neg (by simp only [List.length_cons]; omega)]
                simp only [alpha_from_rgba_spec, Except.ok.injEq]
                rw [show (g + g + g) / 3 % 256 = g by omega]
                rw [← ih']
                simp [resize, List.take_succ_cons, List.length_cons, Nat.succ_sub_succ]

/-- The RGB arm of `buf_to_alpha_mask` computes the composition of the RGB arm
of `buf_to_rgba` with the spec's alpha-from-RGBA reduction. -/
theorem rgb_alpha_mask_eq :
    ∀ (ps : Nat) (l : List Nat),
      rgb_to_alpha ps l = (rgb_to_rgba ps l).map alpha_from_rgba_spec := by
  intro ps
  induction ps with
  | zero => intro l; simp [rgb_to_alpha, rgb_to_rgba, Except.map, alpha_from_rgba_spec]
  | succ ps ih =>
      intro l
      match l with
      | [] => simp [rgb_to_alpha, rgb_to_rgba, Except.map]
      | [a] => simp [rgb_to_alpha, rgb_to_rgba, Except.map]
      | [a, b] => simp [rgb_to_alpha, rgb_to_rgba, Except.map]
      | a :: b :: c :: rest =>
          have ih' := ih rest
          cases hrec : rgb_to_rgba ps rest with
          | error e =>
              rw [hrec] at ih'
              simp only [Except.map] at ih'
              simp only [rgb_to_alpha, rgb_to_rgba, hrec, ih', Except.map]
          | ok tail =>
              rw [hrec] at ih'
              simp only [Except.map] at ih'
              simp only [rgb_to_alpha, rgb_to_rgba, hrec, ih', Except.map,
                alpha_from_rgba_spec]

/-- The indexed arm of `buf_to_alpha_mask` computes the composition of the
indexed arm of `buf_to_rgba` with the spec's alpha-from-RGBA reduction. -/
theorem indexed_alpha_mask_eq (pal : List (Nat × Nat × Nat)) :
    ∀ (ps : Nat) (l : List Nat),
      indexed_to_alpha pal ps l = (indexed_to_rgba pal ps l).map alpha_from_rgba_spec := by
  intro ps
  induction ps with
  | zero => intro l; simp [indexed_to_alpha, indexed_to_rgba, Except.map, alpha_from_rgba_spec]
  | succ ps ih =>
      intro l
      cases l with
      | nil => simp [indexed_to_alpha, indexed_to_rgba, Except.map]
      | cons i rest =>
          cases hp : pal[i]? with
          | none => simp [indexed_to_alpha, indexed_to_rgba, hp, Except.map]
          | some p =>
              have ih' := ih rest
              cases hrec : indexed_to_rgba pal ps rest with
              | error e =>
                  rw [hrec] at ih'
                  simp only [Except.map] at ih'
                  simp only [indexed_to_alpha, indexed_to_rgba, hp, hrec, ih', Except.map]
              | ok tail =>
                  rw [hrec] at ih'
                  simp only [Except.map] at ih'
                  simp only [indexed_to_alpha, indexed_to_rgba, hp, hrec, ih', Except.map,
                    alpha_from_rgba_spec]

/-- The grayscale-alpha arm of `buf_to_alpha_mask` computes, on byte-sized
samples, the composition of the grayscale-alpha arm of `buf_to_rgba` with the
spec's alpha-from-RGBA reduction (the source alpha is ignored by both). -/
theorem grayscale_alpha_alpha_mask_eq :
    ∀ (ps : Nat) (l : List Nat), (∀ x ∈ l, x < 256) →
      grayscale_alpha_to_alpha ps l =
        (grayscale_alpha_to_rgba ps l).map alpha_from_rgba_spec := by
  intro ps
  induction ps with
  | zero =>
      intro l _
      simp [grayscale_alpha_to_alpha, grayscale_alpha_to_rgba, Except.map,
        alpha_from_rgba_spec]
  | succ ps ih =>
      intro l hb
      match l with
      | [] => simp [grayscale_alpha_to_alpha, grayscale_alpha_to_rgba, Except.map]
      | [g] => simp [grayscale_alpha_to_alpha, grayscale_alpha_to_rgba, Except.map]
      | g :: a :: rest =>
          have hg : g < 256 := hb g (by simp)
          have hrest : ∀ x ∈ rest, x < 256 := fun x hx => hb x (by simp [hx])
          have ih' := ih rest hrest
          cases hrec : grayscale_alpha_to_rgba ps rest with
          | error e =>
              rw [hrec] at ih'
              simp only [Except.map] at ih'
              simp only [grayscale_alpha_to_alpha, grayscale_alpha_to_rgba, hrec, ih',
                Except.map]
          | ok tail =>
              rw [hrec] at ih'
              simp only [Except.map] at ih'
              simp only [grayscale_alpha_to_alpha, grayscale_alpha_to_rgba, hrec, ih',
                Except.map, alpha_from_rgba_spec, Except.ok.injEq]
              rw [show (g + g + g) / 3 % 256 = g by omega]

/-- The RGBA arm of `buf_to_alpha_mask` computes the composition of the RGBA
arm of `buf_to_rgba` (length check plus `resize`) with the spec's
alpha-from-RGBA reduction (the source alpha is ignored by both). -/
theorem rgba_alpha_mask_eq :
    ∀ (ps : Nat) (l : List Nat),
      rgba_to_alpha ps l =
        ((if l.length < ps * 4 then (.error .lessDataSize : Except MergeError (List Nat))
          else .ok (resize l (ps * 4)))).map alpha_from_rgba_spec := by
  intro ps
  induction ps with
  | zero =>
      intro l
      simp [rgba_to_alpha, resize, Except.map, alpha_from_rgba_spec]
  | succ ps ih =>
      intro l
      match l with
      | [] =>
          rw [if_pos (by simp only [List.length_nil]; omega)]
          rfl
      | [r] =>
          rw [if_pos (by simp only [List.length_cons, List.length_nil]; omega)]
          rfl
      | [r, g] =>
          rw [if_pos (by simp only [List.length_cons, List.length_nil]; omega)]
          rfl
      | [r, g, b] =>
          rw [if_pos (by simp only [List.length_cons, List.length_nil]; omega)]
          rfl
      | r :: g :: b :: a :: rest =>
          have ih' := ih rest
          by_cases hlen : rest.length < ps * 4
          · rw [if_pos hlen] at ih'
            simp only [Except.map] at ih'
            rw [if_pos (by simp only [List.length_cons]; omega)]
            simp only [rgba_to_alpha, ih', Except.map]
          · rw [if_neg hlen] at ih'
            simp only [Except.map] at ih'
            rw [if_neg (by simp only [List.length_cons]; omega)]
            simp only [rgba_to_alpha, ih', Except.map, Except.ok.injEq]
            have hres : resize (r :: g :: b :: a :: rest) ((ps + 1) * 4) =
                r :: g :: b :: a :: resize rest (ps * 4) := by
              rw [show (ps + 1) * 4 = ps * 4 + 1 + 1 + 1 + 1 by ring]
              simp [resize, List.take_succ_cons, List.length_cons]
            rw [hres]
            simp [alpha_from_rgba_spec]

/-- C4: for every byte buffer, pixel count and format, the fused
`buf_to_alpha_mask` agrees — same success value and same error — with first
normalizing through `buf_to_rgba` and then reducing each 4-byte pixel
(R,G,B,A) to `(R+G+B)/3` in widened truncating arithmetic, the source alpha
being ignored. -/
theorem claim4 (buf : List Nat) (ps : Nat) (info : Info)
    (hbuf : ∀ x ∈ buf, x < 256) :
    buf_to_alpha_mask buf ps info =
      (buf_to_rgba buf ps info).map alpha_from_rgba_spec := by
  obtain ⟨w, ht, d, ct, palette⟩ := info
  cases ct with
  | grayscale =>
      cases hb : read_bytes_for_bit_depth_8 buf d with
      | error e => simp [buf_to_alpha_mask, buf_to_rgba, hb, Except.map]
      | ok bytes =>
          have hlt := read_bytes8_lt buf d bytes hbuf hb
          simp only [buf_to_alpha_mask, buf_to_rgba, hb]
          exact grayscale_alpha_mask_eq ps bytes hlt
  | rgb =>
      cases hb : read_bytes_for_bit_depth_8 buf d with
      | error e => simp [buf_to_alpha_mask, buf_to_rgba, hb, Except.map]
      | ok bytes =>
          simp only [buf_to_alpha_mask, buf_to_rgba, hb]
          exact rgb_alpha_mask_eq ps bytes
  | indexed =>
      cases hb : read_bytes_for_usize buf d with
      | error e => simp [buf_to_alpha_mask, buf_to_rgba, hb, Except.map]
      | ok indices =>
          cases palette with
          | none => simp [buf_to_alpha_mask, buf_to_rgba, hb, Except.map]
          | some v =>
              cases hsp : split_palette v with
              | error e => simp [buf_to_alpha_mask, buf_to_rgba, hb, hsp, Except.map]
              | ok entries =>
                  simp only [buf_to_alpha_mask, buf_to_rgba, hb, hsp]
                  exact indexed_alpha_mask_eq entries ps indices
  | grayscaleAlpha =>
      cases hb : read_bytes_for_bit_depth_8 buf d with
      | error e => simp [buf_to_alpha_mask, buf_to_rgba, hb, Except.map]
      | ok bytes =>
          have hlt := read_bytes8_lt buf d bytes hbuf hb
          simp only [buf_to_alpha_mask, buf_to_rgba, hb]
          exact grayscale_alpha_alpha_mask_eq ps bytes hlt
  | rgba =>
      cases hb : read_bytes_for_bit_depth_8 buf d with
      | error e => simp [buf_to_alpha_mask, buf_to_rgba, hb, Except.map]
      | ok bytes =>
          simp only [buf_to_alpha_mask, buf_to_rgba, hb]
          exact rgba_alpha_mask_eq ps bytes

/-- Witness for C4 on the repository's grayscale depth-2 test input. -/
theorem claim4_witness :
    buf_to_alpha_mask [0b11000000] 4 (Info.mk 2 2 .two .grayscale none) =
      (buf_to_rgba [0b11000000] 4 (Info.mk 2 2 .two .grayscale none)).map
        alpha_from_rgba_spec :=
  claim4 [0b11000000] 4 (Info.mk 2 2 .two .grayscale none) (by decide)

end MergePna
